import Mathlib

/-!
Verification of the Simple C compiler (parser / checker / allocator /
generator).  The definitions below are shallow embeddings of the C++
source: `Ty` embeds `Type` (Type.cpp), the `check*` functions embed
checker.cpp, `Stmt.alloc` embeds the allocator in Type.cpp
(allocator part), and the emission model embeds the end-of-parse logic of
parser.cpp together with `generateGlobals` of generator.cpp.
Machine integers are modelled as `Nat` with explicit reductions
modulo `2 ^ 64` (unsigned long) or `2 ^ 32` (unsigned) where overflow can
occur.  C++ `assert` failures are modelled by `Option`: a result of
`none` means the corresponding run aborts.
-/

namespace SimpleC

/-- Specifier of a Simple C type: one of the four keywords
(tokens INT, CHAR, LONG, VOID). -/
inductive Spec where
  | int
  | char
  | long
  | void
deriving DecidableEq, Repr

/-- Embedding of class `Type` (Type.cpp): a declarator tag
(ERROR, SCALAR, ARRAY, FUNCTION) together with the fields read for that
tag.  The error type carries no fields since `Type::operator==` never
reads them for the ERROR declarator.  A function type's parameter list is
`none` when the C++ `_parameters` pointer is null (a declaration
`f()` with unspecified parameters). -/
inductive Ty where
  | error
  | scalar (spec : Spec) (ind : Nat)
  | array (spec : Spec) (ind : Nat) (len : Nat)
  | func (spec : Spec) (ind : Nat) (params : Option (List Ty))

/-- Shorthand for the static `voidptr` constant `Type(VOID, 1)`. -/
def voidptr : Ty := .scalar .void 1

/-- Shorthand for the static `integer` constant `Type(INT)`. -/
def intTy : Ty := .scalar .int 0

/-- Shorthand for the static `character` constant `Type(CHAR)`. -/
def charTy : Ty := .scalar .char 0

/-- Shorthand for the static `longint` constant `Type(LONG)`. -/
def longTy : Ty := .scalar .long 0

mutual

/-- Embedding of `Type::operator==` (Type.cpp): declarators must agree;
ERROR equals ERROR; then specifier and indirection must agree; scalars
are then equal; arrays also compare lengths; function types compare
parameter lists, except that a null (absent) list on either side makes
the types equal. -/
def tyEq : Ty → Ty → Bool
  | .error, .error => true
  | .scalar s i, .scalar s' i' => s = s' && i = i'
  | .array s i l, .array s' i' l' => s = s' && i = i' && l = l'
  | .func s i p, .func s' i' p' =>
      s = s' && i = i' &&
        (match p, p' with
         | none, _ => true
         | _, none => true
         | some ps, some ps' => tyEqList ps ps')
  | _, _ => false

/-- Elementwise comparison of two parameter vectors with
`Type::operator==`, as done by `std::vector`'s `operator==`. -/
def tyEqList : List Ty → List Ty → Bool
  | [], [] => true
  | a :: as_, b :: bs => tyEq a b && tyEqList as_ bs
  | _, _ => false

end

/-- Embedding of `Type::isArray`. -/
def Ty.isArray : Ty → Bool
  | .array _ _ _ => true
  | _ => false

/-- Embedding of `Type::isScalar`. -/
def Ty.isScalar : Ty → Bool
  | .scalar _ _ => true
  | _ => false

/-- Embedding of `Type::isFunction`. -/
def Ty.isFunction : Ty → Bool
  | .func _ _ _ => true
  | _ => false

/-- Embedding of `Type::isPointer`: a scalar with indirection, or an
array (promotion performed implicitly). -/
def Ty.isPointer : Ty → Bool
  | .scalar _ i => i > 0
  | .array _ _ _ => true
  | _ => false

/-- Embedding of `Type::isNumeric`: scalar, no indirection, not void. -/
def Ty.isNumeric : Ty → Bool
  | .scalar s 0 => s != .void
  | _ => false

/-- Embedding of `Type::isPredicate`: numeric or pointer. -/
def Ty.isPredicate (t : Ty) : Bool :=
  t.isNumeric || t.isPointer

/-- Embedding of `Type::promote`: `char` becomes `int`, an array becomes
a pointer with one more level of indirection, all else is unchanged. -/
def Ty.promote : Ty → Ty
  | .scalar .char 0 => .scalar .int 0
  | .array s i _ => .scalar s (i + 1)
  | t => t

/-- Embedding of `Type::isCompatibleWith`: both numeric; or both
pointers with equal promotions or either side equal to `void *`. -/
def Ty.isCompatibleWith (a b : Ty) : Bool :=
  if a.isNumeric && b.isNumeric then true
  else if !a.isPointer || !b.isPointer then false
  else tyEq a.promote b.promote || tyEq a voidptr || tyEq b voidptr

/-- Embedding of `Type::deref` (Type.cpp): asserts a scalar with
positive indirection and strips one level; `none` models the assertion
failure. -/
def Ty.deref : Ty → Option Ty
  | .scalar s (i + 1) => some (.scalar s i)
  | _ => none

/-- ABI constants consumed from machine.h, with the SysV AMD64 values
the spec lists (SIZEOF_CHAR, SIZEOF_INT, SIZEOF_LONG, SIZEOF_PTR). -/
def SIZEOF_PTR : Nat := 8

/-- Size of a `char` on the target. -/
def SIZEOF_CHAR : Nat := 1

/-- Size of an `int` on the target. -/
def SIZEOF_INT : Nat := 4

/-- Size of a `long` on the target. -/
def SIZEOF_LONG : Nat := 8

/-- Embedding of `Type::size` (allocator part of Type.cpp): asserts the
declarator is neither FUNCTION nor ERROR (modelled by `none`); the count
is the length for arrays and 1 otherwise; pointers use SIZEOF_PTR and
the scalar specifiers their own sizes, with void falling through to 0. -/
def tySize : Ty → Option Nat
  | .error => none
  | .func _ _ _ => none
  | .scalar s i =>
      some (if i > 0 then 1 * SIZEOF_PTR else
            match s with
            | .char => 1 * SIZEOF_CHAR
            | .int => 1 * SIZEOF_INT
            | .long => 1 * SIZEOF_LONG
            | .void => 0)
  | .array s i l =>
      some (if i > 0 then l * SIZEOF_PTR else
            match s with
            | .char => l * SIZEOF_CHAR
            | .int => l * SIZEOF_INT
            | .long => l * SIZEOF_LONG
            | .void => 0)

/-- Modulus of the C++ `unsigned long` values carried by `Number`
nodes. -/
def ULONG_MOD : Nat := 2 ^ 64

/-- Embedding of the expression variants of the `Tree` hierarchy.  Every
node carries the `Type` it was given at construction by the checker.
`number` carries the C++ `unsigned long` value, `stringLit` the byte
count of the literal (terminator included), `identifier` and `call` the
name and type of their symbol. -/
inductive Expr where
  | number (value : Nat) (ty : Ty)
  | stringLit (len : Nat)
  | identifier (name : String) (ty : Ty)
  | call (name : String) (args : List Expr) (ty : Ty)
  | not (e : Expr) (ty : Ty)
  | negate (e : Expr) (ty : Ty)
  | address (e : Expr) (ty : Ty)
  | dereference (e : Expr) (ty : Ty)
  | cast (e : Expr) (ty : Ty)
  | add (l r : Expr) (ty : Ty)
  | subtract (l r : Expr) (ty : Ty)
  | multiply (l r : Expr) (ty : Ty)
  | divide (l r : Expr) (ty : Ty)
  | remainder (l r : Expr) (ty : Ty)
  | lessThan (l r : Expr) (ty : Ty)
  | greaterThan (l r : Expr) (ty : Ty)
  | lessOrEqual (l r : Expr) (ty : Ty)
  | greaterOrEqual (l r : Expr) (ty : Ty)
  | equal (l r : Expr) (ty : Ty)
  | notEqual (l r : Expr) (ty : Ty)
  | logicalAnd (l r : Expr) (ty : Ty)
  | logicalOr (l r : Expr) (ty : Ty)

/-- Type of an expression node (the `_type` field set at construction;
a string literal's type is array-of-char of its byte count). -/
def Expr.type : Expr → Ty
  | .number _ t => t
  | .stringLit n => .array .char 0 n
  | .identifier _ t => t
  | .call _ _ t => t
  | .not _ t => t
  | .negate _ t => t
  | .address _ t => t
  | .dereference _ t => t
  | .cast _ t => t
  | .add _ _ t => t
  | .subtract _ _ t => t
  | .multiply _ _ t => t
  | .divide _ _ t => t
  | .remainder _ _ t => t
  | .lessThan _ _ t => t
  | .greaterThan _ _ t => t
  | .lessOrEqual _ _ t => t
  | .greaterOrEqual _ _ t => t
  | .equal _ _ t => t
  | .notEqual _ _ t => t
  | .logicalAnd _ _ t => t
  | .logicalOr _ _ t => t

/-- Embedding of `Expression::isNumber`: a `Number` node yields its
value. -/
def Expr.isNumber : Expr → Option Nat
  | .number v _ => some v
  | _ => none

/-- Modelled from the spec: Tree.cpp (the `Number` constructor) is not
under src/.  Per the spec's data model and boundary behavior, the
one-argument constructor used throughout the checker types a literal
below `2 ^ 32` as int and larger ones as long; the value is an
`unsigned long`. -/
def mkNumber (v : Nat) : Expr :=
  .number (v % ULONG_MOD) (if v % ULONG_MOD < 2 ^ 32 then intTy else longTy)

/-- Modelled from the spec: Tree.cpp (the `lvalue` methods) is not under
src/.  Per spec section 4.3 an expression is an lvalue iff it is an
`Identifier` whose symbol has scalar type, or a `Dereference`. -/
def Expr.lvalue : Expr → Bool
  | .identifier _ t => t.isScalar
  | .dereference _ _ => true
  | _ => false

/-- Embedding of the checker's static `promote` (checker.cpp): an array
is promoted by inserting an `Address` node, a character by inserting a
`Cast` to int; anything else is returned unchanged. -/
def promoteE (e : Expr) : Expr :=
  if e.type.isArray then .address e e.type.promote
  else if tyEq e.type charTy then .cast e intTy
  else e

/-- Embedding of the checker's static `cast` (checker.cpp): casting an
integer literal to long folds into a fresh `Number`; otherwise a `Cast`
node is inserted. -/
def castE (e : Expr) (t : Ty) : Expr :=
  match e.isNumber with
  | some v =>
      if tyEq e.type intTy && tyEq t longTy then mkNumber v else .cast e t
  | none => .cast e t

/-- Embedding of the checker's static `convert` (checker.cpp):
array-to-pointer promotion when the target is a pointer, then a numeric
cast when source and target are distinct numeric types. -/
def convertE (e : Expr) (t : Ty) : Expr :=
  let e1 := if e.type.isArray && t.isPointer then promoteE e else e
  if !tyEq e1.type t && e1.type.isNumeric && t.isNumeric then castE e1 t
  else e1

/-- Embedding of the checker's static `extend` (checker.cpp): a widening
cast when the source is char or the target is long, followed by
promotion. -/
def extendE (e : Expr) (t : Ty) : Expr :=
  let e1 :=
    if !tyEq e.type t && e.type.isNumeric && t.isNumeric &&
        (tyEq e.type charTy || tyEq t longTy) then
      castE e t
    else e
  promoteE e1

/-- Embedding of the checker's static `scale` (checker.cpp): a literal
is folded into a fresh literal holding the product (unsigned long
arithmetic); otherwise the operand is extended to long and multiplied by
the element size. -/
def scaleE (e : Expr) (size : Nat) : Expr :=
  match e.isNumber with
  | some v => mkNumber (v * size)
  | none => .multiply (extendE e longTy) (mkNumber size) longTy

/-- Diagnostic text of `invalid_operands` after `%s` substitution. -/
def invalidOperands (op : String) : String :=
  "invalid operands to binary " ++ op

/-- Diagnostic text of `invalid_operand` after `%s` substitution. -/
def invalidOperand (op : String) : String :=
  "invalid operand to unary " ++ op

/-- Embedding of `checkNot` (checker.cpp). -/
def checkNot (e : Expr) : Expr × List String :=
  let e' := promoteE e
  let t := e'.type
  if !tyEq t .error then
    if t.isPredicate then (.not e' intTy, [])
    else (.not e' .error, [invalidOperand "!"])
  else (.not e' .error, [])

/-- Embedding of `checkNegate` (checker.cpp). -/
def checkNegate (e : Expr) : Expr × List String :=
  let e' := promoteE e
  let t := e'.type
  if !tyEq t .error then
    if t.isNumeric then (.negate e' t, [])
    else (.negate e' .error, [invalidOperand "-"])
  else (.negate e' .error, [])

/-- Embedding of `checkDereference` (checker.cpp); the `deref` assertion
is threaded through `Option`. -/
def checkDereference (e : Expr) : Option (Expr × List String) :=
  let e' := promoteE e
  let t := e'.type
  if !tyEq t .error then
    if t.isPointer && !tyEq t voidptr then
      t.deref.map fun d => (.dereference e' d, [])
    else some (.dereference e' .error, [invalidOperand "*"])
  else some (.dereference e' .error, [])

/-- Result type built by `checkAddress`: `Type(t.specifier(),
t.indirection() + 1)`.  The error case is unreachable under
`checkAddress`'s guard and maps to the error type. -/
def addrTy : Ty → Ty
  | .scalar s i => .scalar s (i + 1)
  | .array s i _ => .scalar s (i + 1)
  | .func s i _ => .scalar s (i + 1)
  | .error => .error

/-- Embedding of `checkAddress` (checker.cpp). -/
def checkAddress (e : Expr) : Expr × List String :=
  let t := e.type
  if !tyEq t .error then
    if e.lvalue then (.address e (addrTy t), [])
    else (.address e .error, ["lvalue required in expression"])
  else (.address e .error, [])

/-- Embedding of `checkSizeof` (checker.cpp): a non-error non-predicate
operand is reported and yields the literal 0; otherwise the result is
the literal `t.size()`, whose `Type::size` assertion is threaded through
`Option`. -/
def checkSizeof (e : Expr) : Option (Expr × List String) :=
  let t := e.type
  if !tyEq t .error && !t.isPredicate then
    some (mkNumber 0, [invalidOperand "sizeof"])
  else
    (tySize t).map fun s => (mkNumber s, [])

/-- Embedding of `checkArray` (checker.cpp): the left operand is
promoted, the index is scaled by the element size, and the node is a
`Dereference` of an `Add`. -/
def checkArray (l r : Expr) : Option (Expr × List String) :=
  let l' := promoteE l
  let t1 := l'.type
  let t2 := r.type
  if !tyEq t1 .error && !tyEq t2 .error then
    if t1.isPointer && t2.isNumeric && !tyEq t1 voidptr then do
      let d ← t1.deref
      let sz ← tySize d
      return (.dereference (.add l' (scaleE r sz) t1) d, [])
    else some (.dereference (.add l' r t1) .error, [invalidOperands "[]"])
  else some (.dereference (.add l' r t1) .error, [])

/-- Embedding of the static `checkMultiplicative` (checker.cpp),
returning the two rewritten operands, the result type, and the reported
diagnostics. -/
def checkMultiplicative (l r : Expr) (op : String) :
    Expr × Expr × Ty × List String :=
  let l' := extendE l r.type
  let r' := extendE r l'.type
  let t1 := l'.type
  let t2 := r'.type
  if !tyEq t1 .error && !tyEq t2 .error then
    if t1.isNumeric && t2.isNumeric then (l', r', t1, [])
    else (l', r', .error, [invalidOperands op])
  else (l', r', .error, [])

/-- Embedding of `checkMultiply` (checker.cpp). -/
def checkMultiply (l r : Expr) : Expr × List String :=
  let (l', r', t, msgs) := checkMultiplicative l r "*"
  (.multiply l' r' t, msgs)

/-- Embedding of `checkDivide` (checker.cpp). -/
def checkDivide (l r : Expr) : Expr × List String :=
  let (l', r', t, msgs) := checkMultiplicative l r "/"
  (.divide l' r' t, msgs)

/-- Embedding of `checkRemainder` (checker.cpp). -/
def checkRemainder (l r : Expr) : Expr × List String :=
  let (l', r', t, msgs) := checkMultiplicative l r "%"
  (.remainder l' r' t, msgs)

/-- Embedding of `checkAdd` (checker.cpp): numeric operands are
cross-extended; pointer plus numeric promotes the pointer side and
scales the numeric side by the element size. -/
def checkAdd (l r : Expr) : Option (Expr × List String) :=
  let t1 := l.type
  let t2 := r.type
  if !tyEq t1 .error && !tyEq t2 .error then
    if t1.isNumeric && t2.isNumeric then
      let l' := extendE l t2
      let r' := extendE r l'.type
      some (.add l' r' l'.type, [])
    else if t1.isPointer && t2.isNumeric && !tyEq t1 voidptr then do
      let l' := promoteE l
      let d ← l'.type.deref
      let sz ← tySize d
      return (.add l' (scaleE r sz) l'.type, [])
    else if t1.isNumeric && t2.isPointer && !tyEq t2 voidptr then do
      let r' := promoteE r
      let d ← r'.type.deref
      let sz ← tySize d
      return (.add (scaleE l sz) r' r'.type, [])
    else some (.add l r .error, [invalidOperands "+"])
  else some (.add l r .error, [])

/-- Embedding of `checkSubtract` (checker.cpp), including the final
rewrite that wraps a pointer difference in a division by the element
size whenever the two tracked types are equal pointer types. -/
def checkSubtract (l r : Expr) : Option (Expr × List String) := do
  let t1 := l.type
  let t2 := r.type
  let (l', r', t1', t2', result, msgs) ←
    if !tyEq t1 .error && !tyEq t2 .error then
      if t1.isNumeric && t2.isNumeric then
        let l2 := extendE l t2
        let r2 := extendE r l2.type
        some (l2, r2, l2.type, r2.type, l2.type, ([] : List String))
      else
        let l2 := promoteE l
        let t1p := l2.type
        if t1p.isPointer && t2.isNumeric && !tyEq t1p voidptr then do
          let d ← t1p.deref
          let sz ← tySize d
          some (l2, scaleE r sz, t1p, t2, t1p, ([] : List String))
        else
          let r2 := promoteE r
          let t2p := r2.type
          if t1p.isPointer && tyEq t1p t2p && !tyEq t1p voidptr then
            some (l2, r2, t1p, t2p, longTy, ([] : List String))
          else
            some (l2, r2, t1p, t2p, .error, [invalidOperands "-"])
    else
      some (l, r, t1, t2, .error, ([] : List String))
  let e := Expr.subtract l' r' result
  if t1'.isPointer && tyEq t1' t2' then do
    let d ← t1'.deref
    let sz ← tySize d
    return (.divide e (mkNumber sz) longTy, msgs)
  else
    return (e, msgs)

/-- Embedding of the static `checkRelational` (checker.cpp). -/
def checkRelational (l r : Expr) (op : String) :
    Expr × Expr × Ty × List String :=
  let l' := extendE l r.type
  let r' := extendE r l'.type
  let t1 := l'.type
  let t2 := r'.type
  if !tyEq t1 .error && !tyEq t2 .error then
    if tyEq t1 t2 && t1.isPredicate then (l', r', intTy, [])
    else (l', r', .error, [invalidOperands op])
  else (l', r', .error, [])

/-- Embedding of `checkLessThan` (checker.cpp). -/
def checkLessThan (l r : Expr) : Expr × List String :=
  let (l', r', t, msgs) := checkRelational l r "<"
  (.lessThan l' r' t, msgs)

/-- Embedding of `checkGreaterThan` (checker.cpp). -/
def checkGreaterThan (l r : Expr) : Expr × List String :=
  let (l', r', t, msgs) := checkRelational l r ">"
  (.greaterThan l' r' t, msgs)

/-- Embedding of `checkLessOrEqual` (checker.cpp). -/
def checkLessOrEqual (l r : Expr) : Expr × List String :=
  let (l', r', t, msgs) := checkRelational l r "<="
  (.lessOrEqual l' r' t, msgs)

/-- Embedding of `checkGreaterOrEqual` (checker.cpp). -/
def checkGreaterOrEqual (l r : Expr) : Expr × List String :=
  let (l', r', t, msgs) := checkRelational l r ">="
  (.greaterOrEqual l' r' t, msgs)

/-- Embedding of the static `checkEquality` (checker.cpp). -/
def checkEquality (l r : Expr) (op : String) :
    Expr × Expr × Ty × List String :=
  let l' := extendE l r.type
  let r' := extendE r l'.type
  let t1 := l'.type
  let t2 := r'.type
  if !tyEq t1 .error && !tyEq t2 .error then
    if t1.isCompatibleWith t2 then (l', r', intTy, [])
    else (l', r', .error, [invalidOperands op])
  else (l', r', .error, [])

/-- Embedding of `checkEqual` (checker.cpp). -/
def checkEqual (l r : Expr) : Expr × List String :=
  let (l', r', t, msgs) := checkEquality l r "=="
  (.equal l' r' t, msgs)

/-- Embedding of `checkNotEqual` (checker.cpp). -/
def checkNotEqual (l r : Expr) : Expr × List String :=
  let (l', r', t, msgs) := checkEquality l r "!="
  (.notEqual l' r' t, msgs)

/-- Embedding of the static `checkLogical` (checker.cpp). -/
def checkLogical (l r : Expr) (op : String) :
    Expr × Expr × Ty × List String :=
  let l' := extendE l r.type
  let r' := extendE r l'.type
  let t1 := l'.type
  let t2 := r'.type
  if !tyEq t1 .error && !tyEq t2 .error then
    if t1.isPredicate && t2.isPredicate then (l', r', intTy, [])
    else (l', r', .error, [invalidOperands op])
  else (l', r', .error, [])

/-- Embedding of `checkLogicalAnd` (checker.cpp). -/
def checkLogicalAnd (l r : Expr) : Expr × List String :=
  let (l', r', t, msgs) := checkLogical l r "&&"
  (.logicalAnd l' r' t, msgs)

/-- Embedding of `checkLogicalOr` (checker.cpp). -/
def checkLogicalOr (l r : Expr) : Expr × List String :=
  let (l', r', t, msgs) := checkLogical l r "||"
  (.logicalOr l' r' t, msgs)

/-- Embedding of the argument loop of `checkCall` for an absent
parameter list: each argument is promoted in order until a non-error,
non-predicate one reports and breaks; the boolean is the break flag. -/
def promoteArgs : List Expr → List Expr × Bool
  | [] => ([], false)
  | a :: rest =>
      let a' := promoteE a
      let t := a'.type
      if !tyEq t .error && !t.isPredicate then (a' :: rest, true)
      else
        let (rest', bad) := promoteArgs rest
        (a' :: rest', bad)

/-- Embedding of the argument loop of `checkCall` for a present
parameter list: each argument is converted toward its parameter in
order until an incompatible one reports and breaks. -/
def convertArgs : List Expr → List Ty → List Expr × Bool
  | [], _ => ([], false)
  | a :: rest, p :: ps =>
      let a' := convertE a p
      if !(a'.type.isCompatibleWith p) then (a' :: rest, true)
      else
        let (rest', bad) := convertArgs rest ps
        (a' :: rest', bad)
  | args, [] => (args, false)

/-- Diagnostic text of `invalid_arguments`. -/
def invalidArguments : String := "invalid arguments to called function"

/-- Embedding of `checkCall` (checker.cpp): an error-typed callee is
silent; a non-function callee reports `invalid_function`; an absent
parameter list checks each promoted argument for a predicate type; a
present list first compares lengths (reporting leaves the result type
untouched) and otherwise converts and checks compatibility argument by
argument. -/
def checkCall (name : String) (symTy : Ty) (args : List Expr) :
    Expr × List String :=
  if !tyEq symTy .error then
    match symTy with
    | .func spec ind params =>
        match params with
        | none =>
            let (args', bad) := promoteArgs args
            if bad then (.call name args' .error, [invalidArguments])
            else (.call name args' (.scalar spec ind), [])
        | some ps =>
            if ps.length != args.length then
              (.call name args (.scalar spec ind), [invalidArguments])
            else
              let (args', bad) := convertArgs args ps
              if bad then (.call name args' .error, [invalidArguments])
              else (.call name args' (.scalar spec ind), [])
    | _ => (.call name args .error, ["called object is not a function"])
  else (.call name args .error, [])

/-- Embedding of `checkAssignment` (checker.cpp): the right side is
converted toward the left side's type, then lvalue-ness and
compatibility are checked.  The returned pair is the converted right
operand (the `Assignment` node holds `left` and this expression) and
the diagnostics. -/
def checkAssignment (l r : Expr) : Expr × List String :=
  let t1 := l.type
  let r' := convertE r l.type
  let t2 := r'.type
  if !tyEq t1 .error && !tyEq t2 .error then
    if !l.lvalue then (r', ["lvalue required in expression"])
    else if !(t1.isCompatibleWith t2) then (r', [invalidOperands "="])
    else (r', [])
  else (r', [])

/-- Embedding of `checkReturn` (checker.cpp): the expression is
converted toward the function's return type, and incompatibility is
reported. -/
def checkReturn (e : Expr) (t : Ty) : Expr × List String :=
  let e' := convertE e t
  let te := e'.type
  if !tyEq te .error && !(te.isCompatibleWith t) then
    (e', ["invalid return type"])
  else (e', [])

/-- Embedding of `checkTest` (checker.cpp): the expression is promoted
and must have a predicate type. -/
def checkTest (e : Expr) : Expr × List String :=
  let e' := promoteE e
  let t := e'.type
  if !tyEq t .error && !t.isPredicate then
    (e', ["invalid type for test expression"])
  else (e', [])

mutual

/-- Check that a type contains no function type with an absent
parameter list, the one shape on which `Type::operator==` behaves as a
wildcard. -/
def noAbsent : Ty → Bool
  | .error => true
  | .scalar _ _ => true
  | .array _ _ _ => true
  | .func _ _ none => false
  | .func _ _ (some ps) => noAbsentList ps

/-- List version of `noAbsent`. -/
def noAbsentList : List Ty → Bool
  | [] => true
  | t :: ts => noAbsent t && noAbsentList ts

end

/-- Embedding of class `Symbol` as the allocator reads it: the byte
size of the symbol's type (the value of `Type::size`, defined for the
object types symbols of interest carry) and the mutable `_offset`
field, 0 meaning unallocated. -/
structure Sym where
  size : Nat
  offset : Int
deriving DecidableEq, Repr

/-- Embedding of the statement variants walked by the allocator
(allocator part of Type.cpp).  `leaf` stands for the statements with no
allocation behavior; Tree.h is not under src/, and per spec section 4.4
statements other than Block, While, For and If take no part in
allocation. -/
inductive Stmt where
  | block (decls : List Sym) (stmts : List Stmt)
  | ifS (thenStmt : Stmt) (elseStmt : Option Stmt)
  | whileS (body : Stmt)
  | forS (body : Stmt)
  | leaf

/-- Embedding of the declaration loop of `Block::allocate`: each symbol
whose offset is still 0 is assigned a fresh decreasing offset; already
allocated symbols (parameters) are skipped. -/
def allocDecls : List Sym → Int → List Sym × Int
  | [], off => ([], off)
  | s :: rest, off =>
      if s.offset = 0 then
        let off' := off - s.size
        let (rest', offF) := allocDecls rest off'
        ({ s with offset := off' } :: rest', offF)
      else
        let (rest', offF) := allocDecls rest off
        (s :: rest', offF)

mutual

/-- Embedding of the `allocate` members (allocator part of Type.cpp):
`Block::allocate` allocates its declarations and then each contained
statement from a copy of the saved offset, keeping the minimum;
`If::allocate` allocates both branches from the saved offset and keeps
the minimum; `While::allocate` and `For::allocate` recurse into their
bodies.  The returned pair is the tree with updated symbol offsets and
the final value of the by-reference offset argument. -/
def Stmt.allocate : Stmt → Int → Stmt × Int
  | .block decls stmts, off =>
      let (decls', off1) := allocDecls decls off
      let (stmts', offF) := allocStmts stmts off1 off1
      (.block decls' stmts', offF)
  | .ifS t none, off =>
      let (t', offF) := Stmt.allocate t off
      (.ifS t' none, offF)
  | .ifS t (some e), off =>
      let (t', offT) := Stmt.allocate t off
      let (e', offE) := Stmt.allocate e off
      (.ifS t' (some e'), min offT offE)
  | .whileS b, off =>
      let (b', offF) := Stmt.allocate b off
      (.whileS b', offF)
  | .forS b, off =>
      let (b', offF) := Stmt.allocate b off
      (.forS b', offF)
  | .leaf, off => (.leaf, off)

/-- Embedding of the statement loop of `Block::allocate`: every
sibling is allocated from its own copy of the saved offset and the
accumulator keeps the minimum. -/
def allocStmts : List Stmt → Int → Int → List Stmt × Int
  | [], _, acc => ([], acc)
  | s :: rest, saved, acc =>
      let (s', t) := Stmt.allocate s saved
      let (rest', accF) := allocStmts rest saved (min acc t)
      (s' :: rest', accF)

end

/-- Number of parameters passed in registers (machine.h, SysV
AMD64). -/
def NUM_PARAM_REGS : Nat := 6

/-- Stack slot size of one parameter (machine.h, SysV AMD64). -/
def SIZEOF_PARAM : Nat := 8

/-- Size of one register (machine.h, SysV AMD64). -/
def SIZEOF_REG : Nat := 8

/-- Embedding of the first loop of `Function::allocate`: the symbols at
indices `NUM_PARAM_REGS .. nparams - 1` receive the running positive
offset, which advances by `SIZEOF_PARAM` (nonzero on this target, so
the per-parameter branch of `SIZEOF_PARAM ? ... : ...` is never taken).
The C++ loop indexes the symbol vector directly; this walks the list
carrying the index. -/
def stackParams : List Sym → Nat → Nat → Int → List Sym × Int
  | [], _, _, off => ([], off)
  | s :: rest, i, nparams, off =>
      if NUM_PARAM_REGS ≤ i ∧ i < nparams then
        let (rest', offF) := stackParams rest (i + 1) nparams (off + SIZEOF_PARAM)
        ({ s with offset := off } :: rest', offF)
      else
        let (rest', offF) := stackParams rest (i + 1) nparams off
        (s :: rest', offF)

/-- Embedding of the second loop of `Function::allocate`: at most
`NUM_PARAM_REGS` (the fuel) leading symbols, one per parameter, receive
decreasing offsets by the promoted parameter size.  Running out of
symbols while parameters remain models the out-of-bounds index of the
C++ loop and yields `none`, as does an undefined parameter size. -/
def regParams : List Sym → List Ty → Nat → Int → Option (List Sym × Int)
  | syms, _, 0, off => some (syms, off)
  | syms, [], _ + 1, off => some (syms, off)
  | s :: srest, p :: prest, fuel + 1, off => do
      let sz ← tySize p.promote
      let off' := off - sz
      let (rest', offF) ← regParams srest prest fuel off'
      return ({ s with offset := off' } :: rest', offF)
  | [], _ :: _, _ + 1, _ => none

/-- Embedding of `Function::allocate` composed with the body walk: the
stack-passed parameters are assigned from the initial offset, the
offset is reset to 0, the register-passed parameters are assigned
negative offsets, and the body block is allocated. -/
def funcAllocate (params : List Ty) (decls : List Sym) (stmts : List Stmt)
    (off0 : Int) : Option (Stmt × Int) := do
  let (decls1, _) := stackParams decls 0 params.length off0
  let (decls2, offR) ← regParams decls1 params NUM_PARAM_REGS 0
  return Stmt.allocate (.block decls2 stmts) offR

/-- Total size of the symbols of a declaration list that are still
unallocated (offset 0), the amount `Block::allocate`'s first loop
subtracts from the running offset. -/
def declSizeZ : List Sym → Nat
  | [] => 0
  | s :: rest => (if s.offset = 0 then s.size else 0) + declSizeZ rest

/-- Sum of the sizes of the locals declared along one root-to-leaf
statement path: each block on the path contributes its unallocated
declarations, and each block, if or loop on the path continues into one
child. -/
inductive PathLocals : Stmt → Nat → Prop where
  | leaf : PathLocals .leaf 0
  | blockNil (d : List Sym) : PathLocals (.block d []) (declSizeZ d)
  | blockCons (d : List Sym) (ss : List Stmt) (s : Stmt) (w : Nat) :
      s ∈ ss → PathLocals s w → PathLocals (.block d ss) (declSizeZ d + w)
  | ifThen (t : Stmt) (w : Nat) :
      PathLocals t w → PathLocals (.ifS t none) w
  | ifElseLeft (t e : Stmt) (w : Nat) :
      PathLocals t w → PathLocals (.ifS t (some e)) w
  | ifElseRight (t e : Stmt) (w : Nat) :
      PathLocals e w → PathLocals (.ifS t (some e)) w
  | whileBody (b : Stmt) (w : Nat) :
      PathLocals b w → PathLocals (.whileS b) w
  | forBody (b : Stmt) (w : Nat) :
      PathLocals b w → PathLocals (.forS b) w

mutual

/-- Check a predicate on every symbol of a statement tree. -/
def Stmt.allSyms (p : Sym → Bool) : Stmt → Bool
  | .block decls stmts => decls.all p && allSymsList p stmts
  | .ifS t none => Stmt.allSyms p t
  | .ifS t (some e) => Stmt.allSyms p t && Stmt.allSyms p e
  | .whileS b => Stmt.allSyms p b
  | .forS b => Stmt.allSyms p b
  | .leaf => true

/-- List version of `Stmt.allSyms`. -/
def allSymsList (p : Sym → Bool) : List Stmt → Bool
  | [] => true
  | s :: rest => Stmt.allSyms p s && allSymsList p rest

end

/-- Abstraction of one emitted piece of assembly: the code of one
generated function, one `.comm` directive, the `.data` directive, or
one labeled `.asciz` string entry. -/
inductive AsmItem where
  | funcCode (name : String)
  | comm (name : String) (size : Nat)
  | dataDirective
  | asciz (label : Nat) (content : String)
deriving DecidableEq, Repr

/-- Abstraction of one top-level item of a translation unit as the
parser's `globalOrFunction` sees it: a global declaration or a function
definition, each carrying the number of semantic errors reported while
parsing and checking it. -/
inductive TopDecl where
  | globalVar (name : String) (ty : Ty) (errs : Nat)
  | funcDef (name : String) (errs : Nat)

/-- Embedding of the per-function emission decision of
`globalOrFunction` (parser.cpp): after parsing each definition, its
code is generated only when the error counter is still zero at that
point.  The pair is the emitted code and the final error counter. -/
def emitFuncs : List TopDecl → Nat → List AsmItem × Nat
  | [], n => ([], n)
  | .globalVar _ _ e :: rest, n => emitFuncs rest (n + e)
  | .funcDef name e :: rest, n =>
      let n' := n + e
      let (items, nF) := emitFuncs rest n'
      (if n' = 0 then .funcCode name :: items else items, nF)

/-- Symbols of the outermost scope that are not functions, as
`generateGlobals` filters them. -/
def globalsOf : List TopDecl → List (String × Ty)
  | [] => []
  | .globalVar n t _ :: rest => (n, t) :: globalsOf rest
  | .funcDef _ _ :: rest => globalsOf rest

/-- The `.comm` lines of `generateGlobals` (generator.cpp): one per
non-function symbol, with the symbol's `Type::size` (whose assertion is
threaded through `Option`). -/
def commItems : List (String × Ty) → Option (List AsmItem)
  | [] => some []
  | (n, t) :: rest =>
      if t.isFunction then commItems rest
      else do
        let sz ← tySize t
        let items ← commItems rest
        return .comm n sz :: items

/-- Embedding of `generateGlobals` (generator.cpp): the `.comm` lines,
then the unconditional `.data` directive, then one `.asciz` entry per
interned string literal. -/
def generateGlobals (symbols : List (String × Ty))
    (strings : List (String × Nat)) : Option (List AsmItem) := do
  let cs ← commItems symbols
  return cs ++ [.dataDirective] ++ strings.map fun p => .asciz p.2 p.1

/-- Embedding of the output of `main` (parser.cpp): the per-function
code, emitted or suppressed by the error counter as each definition is
parsed, followed by `generateGlobals` on the outermost scope, which
`main` calls unconditionally. -/
def compileUnit (ds : List TopDecl) (strings : List (String × Nat)) :
    Option (List AsmItem) := do
  let globals ← generateGlobals (globalsOf ds) strings
  return (emitFuncs ds 0).1 ++ globals

/-- Total number of semantic errors of a translation unit. -/
def errCount : List TopDecl → Nat
  | [] => 0
  | .globalVar _ _ e :: rest => e + errCount rest
  | .funcDef _ e :: rest => e + errCount rest

/-- Property of a symbol before allocation in an error-free function:
a positive size and the unallocated offset 0. -/
def symPre : Sym → Bool := fun s => decide (0 < s.size) && decide (s.offset = 0)

/-- Property of a symbol after allocation of a local: a strictly
negative offset. -/
def symNeg : Sym → Bool := fun s => decide (s.offset < 0)

/-- Modulus of the `unsigned` label counter. -/
def LABEL_MOD : Nat := 2 ^ 32

/-- Embedding of the `Label` constructor (Label.cpp): the label's
number is the current value of the process-wide static counter, which
is then incremented (`unsigned` arithmetic). -/
def newLabel (counter : Nat) : Nat × Nat :=
  (counter, (counter + 1) % LABEL_MOD)

/-- Numbers handed out by `k` consecutive `Label` constructions
starting from counter value `c`, regardless of whether each label is a
control-flow label or a string-literal label. -/
def labelNumbers : Nat → Nat → List Nat
  | 0, _ => []
  | k + 1, c =>
      let (num, c') := newLabel c
      num :: labelNumbers k c'

/-! Helper lemmas about type equality and the checker. -/

/-- Comparing a scalar type with the error type is false. -/
theorem tyEq_scalar_error (s : Spec) (i : Nat) :
    tyEq (.scalar s i) Ty.error = false := rfl

/-- Unfolding of `tyEq` on two scalar types. -/
theorem tyEq_scalar_scalar (s s' : Spec) (i i' : Nat) :
    tyEq (.scalar s i) (.scalar s' i') =
      (decide (s = s') && decide (i = i')) := rfl

/-- The error type equals itself. -/
theorem tyEq_error_error : tyEq Ty.error Ty.error = true := rfl

/-- Promotion does not rewrite an expression of scalar pointer type. -/
theorem promoteE_of_scalar_ptr (e : Expr) (s : Spec) (i : Nat)
    (h : e.type = .scalar s (i + 1)) : promoteE e = e := by
  simp [promoteE, h, Ty.isArray, tyEq_scalar_scalar, charTy]

/-- A scalar pointer type other than pointer-to-void is not equal to
`voidptr`. -/
theorem tyEq_scalar_ptr_voidptr (s : Spec) (i : Nat)
    (hv : ¬(s = .void ∧ i = 0)) :
    tyEq (.scalar s (i + 1)) voidptr = false := by
  simp only [voidptr, tyEq_scalar_scalar, Bool.and_eq_false_iff,
    decide_eq_false_iff_not]
  by_cases hs : s = .void
  · have hi : i ≠ 0 := fun h0 => hv ⟨hs, h0⟩
    right; omega
  · left; exact hs

/-- Promotion does not rewrite an error-typed expression. -/
theorem promoteE_of_error (e : Expr) (h : e.type = Ty.error) :
    promoteE e = e := by
  simp [promoteE, h, Ty.isArray, tyEq, charTy]

/-- Conversion does not rewrite an error-typed expression. -/
theorem convertE_of_error (e : Expr) (t : Ty) (h : e.type = Ty.error) :
    convertE e t = e := by
  simp [convertE, h, Ty.isArray, Ty.isNumeric]

/-- Extension does not rewrite an error-typed expression. -/
theorem extendE_of_error (e : Expr) (t : Ty) (h : e.type = Ty.error) :
    extendE e t = e := by
  simp [extendE, h, Ty.isNumeric, promoteE_of_error e h]

/-- No type is simultaneously a pointer and equal to the error type. -/
theorem isPointer_and_tyEq_error (t : Ty) :
    (t.isPointer && tyEq t Ty.error) = false := by
  cases t <;> simp [Ty.isPointer, tyEq]

/-- The error type is compatible with nothing. -/
theorem isCompatibleWith_error_left (t : Ty) :
    Ty.isCompatibleWith Ty.error t = false := by
  simp [Ty.isCompatibleWith, Ty.isNumeric, Ty.isPointer]

/-- The promotion loop of `checkCall` is the identity on all-error
argument lists and reports nothing. -/
theorem promoteArgs_all_error (args : List Expr)
    (h : ∀ a ∈ args, a.type = Ty.error) : promoteArgs args = (args, false) := by
  induction args with
  | nil => rfl
  | cons a rest ih =>
      have ha : a.type = Ty.error := h a (by simp)
      have hrest := ih fun x hx => h x (by simp [hx])
      simp [promoteArgs, promoteE_of_error a ha, ha, tyEq_error_error, hrest]

/-- A numeric type is a non-void scalar without indirection. -/
theorem isNumeric_shape (t : Ty) (h : t.isNumeric = true) :
    ∃ s, t = .scalar s 0 ∧ s ≠ .void := by
  cases t with
  | scalar s i =>
      cases i with
      | zero => exact ⟨s, rfl, by simpa [Ty.isNumeric] using h⟩
      | succ n => simp [Ty.isNumeric] at h
  | error => simp [Ty.isNumeric] at h
  | array s i l => simp [Ty.isNumeric] at h
  | func s i p => simp [Ty.isNumeric] at h

mutual

/-- Restricted transitivity of `Type::operator==`: when the middle type
contains no function type with an absent parameter list, equality
chains compose. -/
theorem tyEq_trans_aux : ∀ (b a c : Ty), noAbsent b = true →
    tyEq a b = true → tyEq b c = true → tyEq a c = true
  | .error, a, c, _, h1, h2 => by
      cases a <;> cases c <;> simp_all [tyEq]
  | .scalar s i, a, c, _, h1, h2 => by
      cases a <;> cases c <;> simp_all [tyEq]
  | .array s i l, a, c, _, h1, h2 => by
      cases a <;> cases c <;> simp_all [tyEq]
  | .func s i none, _, _, hb, _, _ => by
      simp [noAbsent] at hb
  | .func s i (some ps), a, c, hb, h1, h2 => by
      simp only [noAbsent] at hb
      obtain ⟨sa, ia, pa, rfl⟩ : ∃ sa ia pa, a = Ty.func sa ia pa := by
        cases a <;> first | exact ⟨_, _, _, rfl⟩ | simp_all [tyEq]
      obtain ⟨sc, ic, pc, rfl⟩ : ∃ sc ic pc, c = Ty.func sc ic pc := by
        cases c <;> first | exact ⟨_, _, _, rfl⟩ | simp_all [tyEq]
      cases pa with
      | none =>
          cases pc <;>
            simp only [tyEq, Bool.and_eq_true, decide_eq_true_eq] at h1 h2 ⊢ <;>
            exact ⟨⟨h1.1.1.trans h2.1.1, h1.1.2.trans h2.1.2⟩, trivial⟩
      | some psa =>
          cases pc with
          | none =>
              simp only [tyEq, Bool.and_eq_true, decide_eq_true_eq] at h1 h2 ⊢
              exact ⟨⟨h1.1.1.trans h2.1.1, h1.1.2.trans h2.1.2⟩, trivial⟩
          | some psc =>
              simp only [tyEq, Bool.and_eq_true, decide_eq_true_eq] at h1 h2 ⊢
              exact ⟨⟨h1.1.1.trans h2.1.1, h1.1.2.trans h2.1.2⟩,
                tyEqList_trans_aux ps psa psc hb h1.2 h2.2⟩
termination_by b _ _ _ _ _ => sizeOf b

/-- List version of `tyEq_trans_aux`. -/
theorem tyEqList_trans_aux : ∀ (bs as_ cs : List Ty), noAbsentList bs = true →
    tyEqList as_ bs = true → tyEqList bs cs = true → tyEqList as_ cs = true
  | [], as_, cs, _, h1, h2 => by
      cases as_ <;> cases cs <;> simp_all [tyEqList]
  | b :: bs, as_, cs, hb, h1, h2 => by
      simp only [noAbsentList, Bool.and_eq_true] at hb
      cases as_ <;> cases cs <;> simp_all [tyEqList]
      exact ⟨tyEq_trans_aux b _ _ hb.1 h1.1 h2.1,
             tyEqList_trans_aux bs _ _ hb.2 h1.2 h2.2⟩
termination_by bs _ _ _ _ _ => sizeOf bs

end

/-! Claim C6. -/

/-- C6 counterexample: `Type::operator==` is not transitive.  The type
`int f(int)` equals `int f()` (absent list is a wildcard) and `int f()`
equals `int f(long)`, yet `int f(int)` does not equal `int f(long)`. -/
theorem tyEq_not_transitive_counterexample :
    tyEq (.func .int 0 (some [intTy])) (.func .int 0 none) = true ∧
    tyEq (.func .int 0 none) (.func .int 0 (some [longTy])) = true ∧
    tyEq (.func .int 0 (some [intTy])) (.func .int 0 (some [longTy])) = false :=
  ⟨rfl, rfl, rfl⟩

/-- C6 (amended): `Type::operator==` is transitive whenever the middle
type contains no function type with an absent parameter list (the
wildcard that breaks transitivity); two function types with distinct
present parameter lists are unequal; and a function type with an absent
parameter list equals every function type with the same specifier and
indirection. -/
theorem tyEq_equality_amended :
    (∀ a b c : Ty, noAbsent b = true → tyEq a b = true → tyEq b c = true →
        tyEq a c = true) ∧
    (∀ (s : Spec) (i : Nat) (ps ps' : List Ty), tyEqList ps ps' = false →
        tyEq (.func s i (some ps)) (.func s i (some ps')) = false) ∧
    (∀ (s : Spec) (i : Nat) (p : Option (List Ty)),
        tyEq (.func s i none) (.func s i p) = true) := by
  refine ⟨fun a b c hb h1 h2 => tyEq_trans_aux b a c hb h1 h2, ?_, ?_⟩
  · intro s i ps ps' h
    simp [tyEq, h]
  · intro s i p
    cases p <;> simp [tyEq]

/-- C6 witness: the amended theorem applied at concrete types. -/
theorem tyEq_equality_amended_witness :
    (noAbsent (Ty.func .int 0 (some [intTy])) = true ∧
      tyEq (Ty.func .int 0 (some [intTy])) (Ty.func .int 0 (some [intTy])) =
        true) ∧
    (tyEqList [intTy] [longTy] = false ∧
      tyEq (Ty.func .char 1 (some [intTy])) (Ty.func .char 1 (some [longTy])) =
        false) ∧
    tyEq (Ty.func .long 0 none) (Ty.func .long 0 (some [])) = true :=
  ⟨⟨rfl, tyEq_equality_amended.1 (Ty.func .int 0 (some [intTy]))
      (Ty.func .int 0 (some [intTy])) (Ty.func .int 0 (some [intTy]))
      rfl rfl rfl⟩,
   ⟨rfl, tyEq_equality_amended.2.1 .char 1 [intTy] [longTy] rfl⟩,
   tyEq_equality_amended.2.2 .long 0 (some [])⟩

/-! Claim C4. -/

/-- C4: subtracting two operands of the identical scalar pointer type
pointer-to-T with T not void yields the `Subtract` node wrapped in a
`Divide` by the literal `sizeof(T)`, and the type of the whole
expression is long. -/
theorem checkSubtract_pointer_difference (l r : Expr) (s : Spec) (i : Nat)
    (sz : Nat) (hl : l.type = .scalar s (i + 1)) (hr : r.type = .scalar s (i + 1))
    (hv : ¬(s = .void ∧ i = 0)) (hsz : tySize (.scalar s i) = some sz) :
    checkSubtract l r =
      some (.divide (.subtract l r longTy) (mkNumber sz) longTy, []) := by
  simp [checkSubtract, hl, hr, promoteE_of_scalar_ptr l s i hl,
    promoteE_of_scalar_ptr r s i hr, tyEq_scalar_error, tyEq_scalar_scalar,
    tyEq_scalar_ptr_voidptr s i hv, Ty.isNumeric, Ty.isPointer, Ty.deref, hsz]

/-- C4 witness: `int * - int *` becomes a division of the difference by
the literal 4 with type long, with no diagnostic. -/
theorem checkSubtract_pointer_difference_witness :
    (Expr.identifier "p" (.scalar .int 1)).type = Ty.scalar .int (0 + 1) ∧
    (Expr.identifier "q" (.scalar .int 1)).type = Ty.scalar .int (0 + 1) ∧
    ¬(Spec.int = Spec.void ∧ 0 = 0) ∧
    tySize (.scalar .int 0) = some 4 ∧
    checkSubtract (.identifier "p" (.scalar .int 1))
        (.identifier "q" (.scalar .int 1)) =
      some (.divide
        (.subtract (.identifier "p" (.scalar .int 1))
          (.identifier "q" (.scalar .int 1)) longTy)
        (mkNumber 4) longTy, []) :=
  ⟨rfl, rfl, by simp, rfl,
    checkSubtract_pointer_difference _ _ .int 0 4 rfl rfl (by simp) rfl⟩

/-! Claim C9. -/

/-- C9: subtracting two pointer-to-void operands reports invalid
operands and types the `Subtract` node with the error type, yet the
returned expression is that error-typed subtraction wrapped in a
`Divide` by the literal 0, because the wrapping condition does not
exclude void pointers. -/
theorem checkSubtract_voidptr_divide_wrap (l r : Expr)
    (hl : l.type = voidptr) (hr : r.type = voidptr) :
    checkSubtract l r =
      some (.divide (.subtract l r Ty.error) (mkNumber 0) longTy,
        [invalidOperands "-"]) := by
  have hl' : l.type = .scalar .void (0 + 1) := hl
  have hr' : r.type = .scalar .void (0 + 1) := hr
  simp [checkSubtract, hl, hr, promoteE_of_scalar_ptr l .void 0 hl',
    promoteE_of_scalar_ptr r .void 0 hr', voidptr, tyEq_scalar_error,
    tyEq_scalar_scalar, Ty.isNumeric, Ty.isPointer, Ty.deref, tySize]

/-- C9 witness: `void * - void *` on concrete identifiers. -/
theorem checkSubtract_voidptr_divide_wrap_witness :
    (Expr.identifier "p" voidptr).type = voidptr ∧
    (Expr.identifier "q" voidptr).type = voidptr ∧
    checkSubtract (.identifier "p" voidptr) (.identifier "q" voidptr) =
      some (.divide
        (.subtract (.identifier "p" voidptr) (.identifier "q" voidptr) Ty.error)
        (mkNumber 0) longTy, [invalidOperands "-"]) :=
  ⟨rfl, rfl, checkSubtract_voidptr_divide_wrap _ _ rfl rfl⟩

/-! Claim C5. -/

/-- C5: for addition or subtraction between a pointer-to-T operand
(scalar pointer, T not void) and a numeric operand, the checker
rewrites the numeric operand into `scale` of it by `sizeof(T)`; `scale`
of a literal `n` is the single literal `n * sizeof(T)` (unsigned long
arithmetic) with no `Multiply` node, and `scale` of a non-literal is a
`Multiply` of the long-extended operand by the literal `sizeof(T)`. -/
theorem pointer_arithmetic_scaling :
    (∀ (p e : Expr) (s : Spec) (i sz : Nat), p.type = .scalar s (i + 1) →
        ¬(s = .void ∧ i = 0) → e.type.isNumeric = true →
        tySize (.scalar s i) = some sz →
        checkAdd p e = some (.add p (scaleE e sz) (.scalar s (i + 1)), [])) ∧
    (∀ (p e : Expr) (s : Spec) (i sz : Nat), p.type = .scalar s (i + 1) →
        ¬(s = .void ∧ i = 0) → e.type.isNumeric = true →
        tySize (.scalar s i) = some sz →
        checkAdd e p = some (.add (scaleE e sz) p (.scalar s (i + 1)), [])) ∧
    (∀ (p e : Expr) (s : Spec) (i sz : Nat), p.type = .scalar s (i + 1) →
        ¬(s = .void ∧ i = 0) → e.type.isNumeric = true →
        tySize (.scalar s i) = some sz →
        checkSubtract p e =
          some (.subtract p (scaleE e sz) (.scalar s (i + 1)), [])) ∧
    (∀ (v sz : Nat) (t : Ty), scaleE (.number v t) sz = mkNumber (v * sz)) ∧
    (∀ (e : Expr) (sz : Nat), e.isNumber = none →
        scaleE e sz = .multiply (extendE e longTy) (mkNumber sz) longTy) := by
  refine ⟨?_, ?_, ?_, ?_, ?_⟩
  · intro p e s i sz hp hv he hsz
    obtain ⟨s2, he2, hs2⟩ := isNumeric_shape _ he
    simp [checkAdd, hp, he2, promoteE_of_scalar_ptr p s i hp, tyEq_scalar_error,
      tyEq_scalar_scalar, tyEq_scalar_ptr_voidptr s i hv, Ty.isNumeric,
      Ty.isPointer, Ty.deref, hsz, hs2]
  · intro p e s i sz hp hv he hsz
    obtain ⟨s2, he2, hs2⟩ := isNumeric_shape _ he
    simp [checkAdd, hp, he2, promoteE_of_scalar_ptr p s i hp, tyEq_scalar_error,
      tyEq_scalar_scalar, tyEq_scalar_ptr_voidptr s i hv, Ty.isNumeric,
      Ty.isPointer, Ty.deref, hsz, hs2]
  · intro p e s i sz hp hv he hsz
    obtain ⟨s2, he2, hs2⟩ := isNumeric_shape _ he
    simp [checkSubtract, hp, he2, promoteE_of_scalar_ptr p s i hp,
      tyEq_scalar_error, tyEq_scalar_scalar, tyEq_scalar_ptr_voidptr s i hv,
      Ty.isNumeric, Ty.isPointer, Ty.deref, hsz, hs2]
  · intro v sz t
    rfl
  · intro e sz h
    simp [scaleE, h]

/-- C5 witness: `p + 2` for `int *p` folds the scaled index into the
single literal 8. -/
theorem pointer_arithmetic_scaling_witness :
    (Expr.identifier "p" (.scalar .int 1)).type = Ty.scalar .int (0 + 1) ∧
    ¬(Spec.int = Spec.void ∧ 0 = 0) ∧
    (mkNumber 2).type.isNumeric = true ∧
    tySize (.scalar .int 0) = some 4 ∧
    checkAdd (.identifier "p" (.scalar .int 1)) (mkNumber 2) =
      some (.add (.identifier "p" (.scalar .int 1)) (scaleE (mkNumber 2) 4)
        (.scalar .int (0 + 1)), []) ∧
    scaleE (mkNumber 2) 4 = mkNumber 8 :=
  ⟨rfl, by simp, rfl, rfl,
    pointer_arithmetic_scaling.1 _ _ .int 0 4 rfl (by simp) rfl rfl, rfl⟩

/-! Claim C3. -/

/-- C3 counterexample: calling `int f(void)` (an empty, present
parameter list) with one argument reports `invalid_arguments` once but
the returned `Call` node carries the callee's return type int, not the
error type. -/
theorem checkCall_arity_mismatch_counterexample :
    checkCall "f" (.func .int 0 (some [])) [mkNumber 1] =
      (.call "f" [mkNumber 1] (.scalar .int 0), [invalidArguments]) ∧
    tyEq (Ty.scalar .int 0) Ty.error = false :=
  ⟨rfl, rfl⟩

/-- C3 (amended): for a callee with a present parameter list, an
argument-count mismatch reports `invalid_arguments` exactly once but
the returned `Call` node keeps the callee's return type; an
incompatible converted argument reports exactly once and the node has
the error type. -/
theorem checkCall_invalid_arguments_amended :
    (∀ (n : String) (spec : Spec) (ind : Nat) (ps : List Ty)
        (args : List Expr), ps.length ≠ args.length →
        checkCall n (.func spec ind (some ps)) args =
          (.call n args (.scalar spec ind), [invalidArguments])) ∧
    (∀ (n : String) (spec : Spec) (ind : Nat) (ps : List Ty)
        (args : List Expr), ps.length = args.length →
        (convertArgs args ps).2 = true →
        checkCall n (.func spec ind (some ps)) args =
          (.call n (convertArgs args ps).1 .error, [invalidArguments])) := by
  constructor
  · intro n spec ind ps args h
    simp [checkCall, tyEq, h]
  · intro n spec ind ps args h hbad
    simp [checkCall, tyEq, h, hbad]

/-- C3 witness: the amended theorem applied to an arity mismatch and to
an incompatible argument. -/
theorem checkCall_invalid_arguments_amended_witness :
    (([] : List Ty).length ≠ [mkNumber 1].length ∧
      checkCall "f" (.func .int 0 (some [])) [mkNumber 1] =
        (.call "f" [mkNumber 1] (.scalar .int 0), [invalidArguments])) ∧
    ([intTy].length = [Expr.identifier "p" voidptr].length ∧
      (convertArgs [.identifier "p" voidptr] [intTy]).2 = true ∧
      checkCall "g" (.func .int 0 (some [intTy])) [.identifier "p" voidptr] =
        (.call "g" (convertArgs [.identifier "p" voidptr] [intTy]).1 .error,
          [invalidArguments])) :=
  ⟨⟨by decide,
    checkCall_invalid_arguments_amended.1 "f" .int 0 [] [mkNumber 1] (by decide)⟩,
   ⟨rfl, rfl,
    checkCall_invalid_arguments_amended.2 "g" .int 0 [intTy]
      [.identifier "p" voidptr] rfl rfl⟩⟩

/-! Claim C1. -/

/-- C1 counterexample: an error-typed argument to a callee with a
present parameter list makes `checkCall` report `invalid_arguments`,
and `checkSizeof` of an error-typed operand aborts in the `Type::size`
assertion instead of returning an error-typed node. -/
theorem checkCall_reports_on_error_argument :
    (Expr.identifier "x" Ty.error).type = Ty.error ∧
    checkCall "f" (.func .int 0 (some [intTy])) [.identifier "x" .error] =
      (.call "f" [.identifier "x" .error] .error, [invalidArguments]) ∧
    checkSizeof (.identifier "y" Ty.error) = none :=
  ⟨rfl, rfl, rfl⟩

set_option maxHeartbeats 1000000 in
/-- C1 (amended): every checker entry point except `checkSizeof` and
`checkCall` silently propagates the error type: with an error-typed
operand the constructed node carries the error type and no diagnostic
is reported.  `checkCall` with an error-typed callee is likewise
silent; with an absent parameter list and error-typed arguments it is
silent but returns the callee's return type rather than error; with a
present parameter list it reports `invalid_arguments` on an error-typed
argument.  `checkSizeof` with an error-typed operand reports nothing
but fails the `Type::size` assertion instead of returning a node. -/
theorem checker_error_propagation_amended :
    (∀ e : Expr, e.type = Ty.error → checkNot e = (.not e .error, [])) ∧
    (∀ e : Expr, e.type = Ty.error → checkNegate e = (.negate e .error, [])) ∧
    (∀ e : Expr, e.type = Ty.error →
        checkDereference e = some (.dereference e .error, [])) ∧
    (∀ e : Expr, e.type = Ty.error → checkAddress e = (.address e .error, [])) ∧
    (∀ l r : Expr, l.type = Ty.error ∨ r.type = Ty.error →
        ∃ out, checkArray l r = some out ∧ out.1.type = Ty.error ∧
          out.2 = []) ∧
    (∀ l r : Expr, l.type = Ty.error ∨ r.type = Ty.error →
        checkAdd l r = some (.add l r .error, [])) ∧
    (∀ l r : Expr, l.type = Ty.error ∨ r.type = Ty.error →
        checkSubtract l r = some (.subtract l r .error, [])) ∧
    (∀ l r : Expr, l.type = Ty.error ∨ r.type = Ty.error →
        (checkMultiply l r).1.type = Ty.error ∧ (checkMultiply l r).2 = []) ∧
    (∀ l r : Expr, l.type = Ty.error ∨ r.type = Ty.error →
        (checkDivide l r).1.type = Ty.error ∧ (checkDivide l r).2 = []) ∧
    (∀ l r : Expr, l.type = Ty.error ∨ r.type = Ty.error →
        (checkRemainder l r).1.type = Ty.error ∧ (checkRemainder l r).2 = []) ∧
    (∀ l r : Expr, l.type = Ty.error ∨ r.type = Ty.error →
        (checkLessThan l r).1.type = Ty.error ∧ (checkLessThan l r).2 = []) ∧
    (∀ l r : Expr, l.type = Ty.error ∨ r.type = Ty.error →
        (checkGreaterThan l r).1.type = Ty.error ∧
          (checkGreaterThan l r).2 = []) ∧
    (∀ l r : Expr, l.type = Ty.error ∨ r.type = Ty.error →
        (checkLessOrEqual l r).1.type = Ty.error ∧
          (checkLessOrEqual l r).2 = []) ∧
    (∀ l r : Expr, l.type = Ty.error ∨ r.type = Ty.error →
        (checkGreaterOrEqual l r).1.type = Ty.error ∧
          (checkGreaterOrEqual l r).2 = []) ∧
    (∀ l r : Expr, l.type = Ty.error ∨ r.type = Ty.error →
        (checkEqual l r).1.type = Ty.error ∧ (checkEqual l r).2 = []) ∧
    (∀ l r : Expr, l.type = Ty.error ∨ r.type = Ty.error →
        (checkNotEqual l r).1.type = Ty.error ∧ (checkNotEqual l r).2 = []) ∧
    (∀ l r : Expr, l.type = Ty.error ∨ r.type = Ty.error →
        (checkLogicalAnd l r).1.type = Ty.error ∧
          (checkLogicalAnd l r).2 = []) ∧
    (∀ l r : Expr, l.type = Ty.error ∨ r.type = Ty.error →
        (checkLogicalOr l r).1.type = Ty.error ∧ (checkLogicalOr l r).2 = []) ∧
    (∀ l r : Expr, l.type = Ty.error ∨ r.type = Ty.error →
        (checkAssignment l r).2 = []) ∧
    (∀ (e : Expr) (t : Ty), e.type = Ty.error → (checkReturn e t).2 = []) ∧
    (∀ e : Expr, e.type = Ty.error → (checkTest e).2 = []) ∧
    (∀ (n : String) (args : List Expr),
        checkCall n Ty.error args = (.call n args .error, [])) ∧
    (∀ (n : String) (spec : Spec) (ind : Nat) (args : List Expr),
        (∀ a ∈ args, a.type = Ty.error) →
        checkCall n (.func spec ind none) args =
          (.call n args (.scalar spec ind), [])) ∧
    (∀ (n : String) (spec : Spec) (ind : Nat) (p : Ty) (a : Expr),
        a.type = Ty.error →
        checkCall n (.func spec ind (some [p])) [a] =
          (.call n [a] .error, [invalidArguments])) ∧
    (∀ e : Expr, e.type = Ty.error → checkSizeof e = none) := by
  have herr : ∀ l r : Expr, l.type = Ty.error ∨ r.type = Ty.error →
      (!tyEq (extendE l r.type).type Ty.error &&
        !tyEq (extendE r (extendE l r.type).type).type Ty.error) = false := by
    intro l r h
    rcases h with h | h
    · rw [extendE_of_error l r.type h, h]
      simp [tyEq_error_error]
    · rw [extendE_of_error r _ h, h]
      simp [tyEq_error_error]
  refine ⟨?_, ?_, ?_, ?_, ?_, ?_, ?_, ?_, ?_, ?_, ?_, ?_, ?_, ?_, ?_, ?_, ?_,
    ?_, ?_, ?_, ?_, ?_, ?_, ?_, ?_⟩
  · intro e h
    simp [checkNot, promoteE_of_error e h, h, tyEq_error_error]
  · intro e h
    simp [checkNegate, promoteE_of_error e h, h, tyEq_error_error]
  · intro e h
    simp [checkDereference, promoteE_of_error e h, h, tyEq_error_error]
  · intro e h
    simp [checkAddress, h, tyEq_error_error]
  · intro l r h
    rcases h with h | h
    · exact ⟨(.dereference (.add l r Ty.error) .error, []),
        by simp [checkArray, promoteE_of_error l h, h, tyEq_error_error],
        rfl, rfl⟩
    · exact ⟨(.dereference (.add (promoteE l) r (promoteE l).type) .error, []),
        by simp [checkArray, h, tyEq_error_error], rfl, rfl⟩
  · intro l r h
    rcases h with h | h
    · simp [checkAdd, h, tyEq_error_error]
    · simp [checkAdd, h, tyEq_error_error]
  · intro l r h
    have hguard : (!tyEq l.type Ty.error && !tyEq r.type Ty.error) = false := by
      rcases h with h | h <;> simp [h, tyEq_error_error]
    have hwrap : (l.type.isPointer && tyEq l.type r.type) = false := by
      rcases h with h | h
      · simp [h, Ty.isPointer]
      · rw [h]
        exact isPointer_and_tyEq_error l.type
    simp [checkSubtract, hguard]
    intro hp ht
    rw [hp, ht] at hwrap
    simp at hwrap
  · intro l r h
    simp [checkMultiply, checkMultiplicative, herr l r h]
    rfl
  · intro l r h
    simp [checkDivide, checkMultiplicative, herr l r h]
    rfl
  · intro l r h
    simp [checkRemainder, checkMultiplicative, herr l r h]
    rfl
  · intro l r h
    simp [checkLessThan, checkRelational, herr l r h]
    rfl
  · intro l r h
    simp [checkGreaterThan, checkRelational, herr l r h]
    rfl
  · intro l r h
    simp [checkLessOrEqual, checkRelational, herr l r h]
    rfl
  · intro l r h
    simp [checkGreaterOrEqual, checkRelational, herr l r h]
    rfl
  · intro l r h
    simp [checkEqual, checkEquality, herr l r h]
    rfl
  · intro l r h
    simp [checkNotEqual, checkEquality, herr l r h]
    rfl
  · intro l r h
    simp [checkLogicalAnd, checkLogical, herr l r h]
    rfl
  · intro l r h
    simp [checkLogicalOr, checkLogical, herr l r h]
    rfl
  · intro l r h
    rcases h with h | h
    · simp [checkAssignment, h, tyEq_error_error]
    · simp [checkAssignment, convertE_of_error r _ h, h, tyEq_error_error]
  · intro e t h
    simp [checkReturn, convertE_of_error e t h, h, tyEq_error_error]
  · intro e h
    simp [checkTest, promoteE_of_error e h, h, tyEq_error_error]
  · intro n args
    simp [checkCall, tyEq_error_error]
  · intro n spec ind args h
    simp [checkCall, tyEq, promoteArgs_all_error args h]
  · intro n spec ind p a h
    simp [checkCall, tyEq, convertArgs, convertE_of_error a p h, h,
      isCompatibleWith_error_left]
  · intro e h
    simp [checkSizeof, h, tyEq_error_error, tySize]

/-! Claim C2: end-of-parse emission. -/

/-- Membership of a global declaration in the collected outermost
symbols. -/
theorem globalsOf_mem (ds : List TopDecl) (name : String) (t : Ty) (e : Nat)
    (h : TopDecl.globalVar name t e ∈ ds) : (name, t) ∈ globalsOf ds := by
  induction ds with
  | nil => simp at h
  | cons d rest ih =>
      cases d with
      | globalVar n' t' e' =>
          rcases List.mem_cons.mp h with h | h
          · cases h
            simp [globalsOf]
          · simp [globalsOf, ih h]
      | funcDef n' e' =>
          rcases List.mem_cons.mp h with h | h
          · cases h
          · simp [globalsOf, ih h]

/-- Every non-function symbol of the outermost scope contributes a
`.comm` line. -/
theorem commItems_mem (syms : List (String × Ty)) (cs : List AsmItem)
    (h : commItems syms = some cs) (name : String) (t : Ty)
    (hmem : (name, t) ∈ syms) (hf : t.isFunction = false) :
    ∃ sz, tySize t = some sz ∧ AsmItem.comm name sz ∈ cs := by
  induction syms generalizing cs with
  | nil => simp at hmem
  | cons p rest ih =>
      rcases List.mem_cons.mp hmem with hm | hm
      · subst hm
        rw [commItems, if_neg (by simp [hf])] at h
        rcases Option.bind_eq_some.mp h with ⟨sz, hsz, h2⟩
        rcases Option.bind_eq_some.mp h2 with ⟨items, hitems, h3⟩
        cases Option.some.inj h3
        exact ⟨sz, hsz, by simp⟩
      · obtain ⟨n', t'⟩ := p
        rw [commItems] at h
        by_cases hft : t'.isFunction = true
        · rw [if_pos hft] at h
          exact ih _ h hm
        · rw [if_neg hft] at h
          rcases Option.bind_eq_some.mp h with ⟨sz, hsz, h2⟩
          rcases Option.bind_eq_some.mp h2 with ⟨items, hitems, h3⟩
          cases Option.some.inj h3
          obtain ⟨sz', hsz', hmem'⟩ := ih _ hitems hm
          exact ⟨sz', hsz', by simp [hmem']⟩

/-- C2 counterexample: a unit consisting of one global `int x;` and one
semantic error still produces assembly: the error counter is nonzero at
the end of parsing, yet the output contains `.comm x, 4` and the
`.data` directive, because `main` calls `generateGlobals`
unconditionally. -/
theorem global_emission_despite_errors_counterexample :
    errCount [TopDecl.globalVar "x" intTy 1] ≠ 0 ∧
    compileUnit [TopDecl.globalVar "x" intTy 1] [] =
      some [.comm "x" 4, .dataDirective] := by
  constructor
  · simp [errCount]
  · rfl

/-- C2 (amended): a nonzero error counter suppresses only function
code, and only from the moment it becomes nonzero: no function parsed
with a nonzero counter is emitted, the output of a concatenated unit
splits into the functions emitted before and after the error count of
the prefix, every non-function global contributes its `.comm` directive
regardless of the counter, and the `.data` directive is always
emitted. -/
theorem emission_after_errors_amended :
    (∀ (ds : List TopDecl) (n : Nat), n ≠ 0 → (emitFuncs ds n).1 = []) ∧
    (∀ (a b : List TopDecl) (n : Nat),
        (emitFuncs (a ++ b) n).1 =
          (emitFuncs a n).1 ++ (emitFuncs b (n + errCount a)).1) ∧
    (∀ (ds : List TopDecl) (strs : List (String × Nat)) (out : List AsmItem),
        compileUnit ds strs = some out →
        ∀ (name : String) (t : Ty) (e : Nat),
          TopDecl.globalVar name t e ∈ ds → t.isFunction = false →
          ∃ sz, tySize t = some sz ∧ AsmItem.comm name sz ∈ out) ∧
    (∀ (ds : List TopDecl) (strs : List (String × Nat)) (out : List AsmItem),
        compileUnit ds strs = some out → AsmItem.dataDirective ∈ out) := by
  have h1 : ∀ (ds : List TopDecl) (n : Nat), n ≠ 0 →
      (emitFuncs ds n).1 = [] := by
    intro ds
    induction ds with
    | nil => intro n h; rfl
    | cons d rest ih =>
        intro n h
        cases d with
        | globalVar n' t' e' =>
            simp only [emitFuncs]
            exact ih _ (by omega)
        | funcDef n' e' =>
            simp only [emitFuncs]
            rw [if_neg (by omega)]
            exact ih _ (by omega)
  have hsplit : ∀ (ds : List TopDecl) (strs : List (String × Nat))
      (out : List AsmItem), compileUnit ds strs = some out →
      ∃ cs, commItems (globalsOf ds) = some cs ∧
        out = (emitFuncs ds 0).1 ++ cs ++ [AsmItem.dataDirective] ++
          strs.map fun p => AsmItem.asciz p.2 p.1 := by
    intro ds strs out h
    rw [compileUnit, generateGlobals] at h
    rcases Option.bind_eq_some.mp h with ⟨gs, hgs, h2⟩
    rcases Option.bind_eq_some.mp hgs with ⟨cs, hcs, h3⟩
    cases Option.some.inj h3
    cases Option.some.inj h2
    exact ⟨cs, hcs, by simp⟩
  refine ⟨h1, ?_, ?_, ?_⟩
  · intro a
    induction a with
    | nil => intro b n; simp [emitFuncs, errCount]
    | cons d rest ih =>
        intro b n
        cases d with
        | globalVar n' t' e' =>
            simp only [List.cons_append, emitFuncs, errCount, List.append_eq]
            rw [ih b (n + e'), Nat.add_assoc]
        | funcDef n' e' =>
            simp only [List.cons_append, emitFuncs, errCount, List.append_eq]
            rw [ih b (n + e'), Nat.add_assoc]
            by_cases hz : n + e' = 0 <;> simp [hz]
  · intro ds strs out h name t e hmem hf
    obtain ⟨cs, hcs, rfl⟩ := hsplit ds strs out h
    obtain ⟨sz, hsz, hmem'⟩ :=
      commItems_mem _ _ hcs name t (globalsOf_mem ds name t e hmem) hf
    exact ⟨sz, hsz, by simp [hmem']⟩
  · intro ds strs out h
    obtain ⟨cs, hcs, rfl⟩ := hsplit ds strs out h
    simp

/-- C2 witness: the amended theorem applied to concrete units. -/
theorem emission_after_errors_amended_witness :
    ((1 : Nat) ≠ 0 ∧ (emitFuncs [TopDecl.funcDef "f" 0] 1).1 = []) ∧
    (compileUnit [TopDecl.globalVar "x" intTy 1] [] =
        some [.comm "x" 4, .dataDirective] ∧
      TopDecl.globalVar "x" intTy 1 ∈ [TopDecl.globalVar "x" intTy 1] ∧
      Ty.isFunction intTy = false ∧
      ∃ sz, tySize intTy = some sz ∧
        AsmItem.comm "x" sz ∈ [AsmItem.comm "x" 4, AsmItem.dataDirective]) ∧
    AsmItem.dataDirective ∈ [AsmItem.comm "x" 4, AsmItem.dataDirective] :=
  ⟨⟨by decide, emission_after_errors_amended.1 [TopDecl.funcDef "f" 0] 1
      (by decide)⟩,
   ⟨rfl, by simp, rfl,
    emission_after_errors_amended.2.2.1 [TopDecl.globalVar "x" intTy 1] [] _
      rfl "x" intTy 1 (by simp) rfl⟩,
   emission_after_errors_amended.2.2.2 [TopDecl.globalVar "x" intTy 1] [] _
     rfl⟩

/-! Claim C10: label numbering. -/

/-- Labels allocated within the counter's range are consecutive. -/
theorem labelNumbers_range' (k : Nat) : ∀ c : Nat, c + k ≤ LABEL_MOD →
    labelNumbers k c = List.range' c k := by
  induction k with
  | zero => intro c h; rfl
  | succ m ih =>
      intro c h
      rw [labelNumbers, List.range'_succ]
      cases m with
      | zero => rfl
      | succ m' =>
          have hc : (c + 1) % LABEL_MOD = c + 1 := Nat.mod_eq_of_lt (by omega)
          simp only [newLabel, hc]
          exact congrArg (c :: ·) (ih (c + 1) (by omega))

/-- C10: every Label constructed during one compilation (any number of
constructions up to the counter's range, shared by control-flow and
string-literal labels) receives a distinct number: the numbers handed
out from the initial counter 0 are exactly 0, 1, 2, ... and contain no
duplicate. -/
theorem label_counter_distinct (k : Nat) (hk : k ≤ LABEL_MOD) :
    labelNumbers k 0 = List.range k ∧ (labelNumbers k 0).Nodup := by
  have h := labelNumbers_range' k 0 (by omega)
  rw [List.range_eq_range']
  exact ⟨h, by rw [h, ← List.range_eq_range']; exact List.nodup_range k⟩

/-- C10 witness: the first three labels are 0, 1, 2 and distinct. -/
theorem label_counter_distinct_witness :
    (3 : Nat) ≤ LABEL_MOD ∧
    (labelNumbers 3 0 = List.range 3 ∧ (labelNumbers 3 0).Nodup) :=
  ⟨by decide, label_counter_distinct 3 (by decide)⟩

/-- C1 witness: the amended theorem applied to concrete error-typed
operands. -/
theorem checker_error_propagation_amended_witness :
    (Expr.identifier "x" Ty.error).type = Ty.error ∧
    checkNot (.identifier "x" .error) =
      (.not (.identifier "x" .error) .error, []) ∧
    checkAdd (.identifier "x" .error) (mkNumber 1) =
      some (.add (.identifier "x" .error) (mkNumber 1) .error, []) ∧
    checkSizeof (.identifier "x" .error) = none :=
  ⟨rfl,
   checker_error_propagation_amended.1 _ rfl,
   checker_error_propagation_amended.2.2.2.2.2.1 _ (mkNumber 1) (Or.inl rfl),
   (checker_error_propagation_amended.2.2.2.2.2.2.2.2.2.2.2.2.2.2.2.2.2.2.2.2.2.2.2.2) _ rfl⟩

/-! Claim C7: block allocation. -/

theorem allocDecls_snd (d : List Sym) : ∀ off : Int,
    (allocDecls d off).2 = off - declSizeZ d := by
  induction d with
  | nil => intro off; simp [allocDecls, declSizeZ]
  | cons s rest ih =>
      intro off
      by_cases h : s.offset = 0 <;>
        simp [allocDecls, h, declSizeZ, ih] <;> omega

theorem allocStmts_snd (s : Stmt) (rest : List Stmt) (saved acc : Int) :
    (allocStmts (s :: rest) saved acc).2 =
      (allocStmts rest saved (min acc (Stmt.allocate s saved).2)).2 := by
  simp [allocStmts]

theorem allocStmts_le_acc (ss : List Stmt) : ∀ saved acc : Int,
    (allocStmts ss saved acc).2 ≤ acc := by
  induction ss with
  | nil => intro saved acc; simp [allocStmts]
  | cons s rest ih =>
      intro saved acc
      calc (allocStmts (s :: rest) saved acc).2
          = (allocStmts rest saved (min acc (Stmt.allocate s saved).2)).2 :=
            allocStmts_snd s rest saved acc
        _ ≤ min acc (Stmt.allocate s saved).2 := ih _ _
        _ ≤ acc := min_le_left _ _

theorem allocStmts_le_mem (ss : List Stmt) (s : Stmt) (hs : s ∈ ss) :
    ∀ saved acc : Int,
    (allocStmts ss saved acc).2 ≤ (Stmt.allocate s saved).2 := by
  induction ss with
  | nil => simp at hs
  | cons x rest ih =>
      intro saved acc
      rcases List.mem_cons.mp hs with h | h
      · subst h
        calc (allocStmts (s :: rest) saved acc).2
            = (allocStmts rest saved (min acc (Stmt.allocate s saved).2)).2 :=
              allocStmts_snd s rest saved acc
          _ ≤ min acc (Stmt.allocate s saved).2 := allocStmts_le_acc _ _ _
          _ ≤ _ := min_le_right _ _
      · calc (allocStmts (x :: rest) saved acc).2
            = (allocStmts rest saved (min acc (Stmt.allocate x saved).2)).2 :=
              allocStmts_snd x rest saved acc
          _ ≤ _ := ih h saved _

theorem allocate_path_bound (st : Stmt) (w : Nat) (h : PathLocals st w) :
    ∀ off : Int, (st.allocate off).2 ≤ off - w := by
  induction h with
  | leaf => intro off; simp [Stmt.allocate]
  | blockNil d => intro off; simp [Stmt.allocate, allocStmts, allocDecls_snd]
  | blockCons d ss s w hs hp ih =>
      intro off
      have h1 : ((Stmt.block d ss).allocate off).2 =
          (allocStmts ss (allocDecls d off).2 (allocDecls d off).2).2 := by
        simp [Stmt.allocate]
      rw [h1]
      calc (allocStmts ss (allocDecls d off).2 (allocDecls d off).2).2
          ≤ (Stmt.allocate s (allocDecls d off).2).2 :=
            allocStmts_le_mem ss s hs _ _
        _ ≤ (allocDecls d off).2 - w := ih _
        _ = off - declSizeZ d - w := by rw [allocDecls_snd]
        _ ≤ off - (declSizeZ d + w : Nat) := by push_cast; omega
  | ifThen t w hp ih =>
      intro off
      have h1 : ((Stmt.ifS t none).allocate off).2 = (t.allocate off).2 := by
        simp [Stmt.allocate]
      rw [h1]; exact ih off
  | ifElseLeft t e w hp ih =>
      intro off
      have h1 : ((Stmt.ifS t (some e)).allocate off).2 =
          min (t.allocate off).2 (e.allocate off).2 := by
        simp [Stmt.allocate]
      rw [h1]
      exact le_trans (min_le_left _ _) (ih off)
  | ifElseRight t e w hp ih =>
      intro off
      have h1 : ((Stmt.ifS t (some e)).allocate off).2 =
          min (t.allocate off).2 (e.allocate off).2 := by
        simp [Stmt.allocate]
      rw [h1]
      exact le_trans (min_le_right _ _) (ih off)
  | whileBody b w hp ih =>
      intro off
      have h1 : ((Stmt.whileS b).allocate off).2 = (b.allocate off).2 := by
        simp [Stmt.allocate]
      rw [h1]; exact ih off
  | forBody b w hp ih =>
      intro off
      have h1 : ((Stmt.forS b).allocate off).2 = (b.allocate off).2 := by
        simp [Stmt.allocate]
      rw [h1]; exact ih off

/-- C7: the allocator gives the sibling statements of a block copies
of the same starting offset (the offset after the block's own
declarations) and takes the block's final offset as the minimum over
the siblings; consequently, for every root-to-leaf path, the final
offset is at most the starting offset minus the sum of the sizes of the
locals declared along the path, so the frame size covers any single
path while siblings may share slots. -/
theorem block_allocation_frame_bound :
    (∀ (d : List Sym) (s1 s2 : Stmt) (off : Int),
        ((Stmt.block d [s1, s2]).allocate off).2 =
          min (min (off - declSizeZ d)
              ((s1.allocate (off - declSizeZ d)).2))
            ((s2.allocate (off - declSizeZ d)).2)) ∧
    (∀ (st : Stmt) (w : Nat) (off : Int), PathLocals st w →
        (st.allocate off).2 ≤ off - w) ∧
    (∀ (st : Stmt) (w : Nat) (off : Int), PathLocals st w → off ≤ 0 →
        (w : Int) ≤ -((st.allocate off).2)) := by
  refine ⟨?_, ?_, ?_⟩
  · intro d s1 s2 off
    simp [Stmt.allocate, allocStmts, allocDecls_snd]
  · intro st w off h
    exact allocate_path_bound st w h off
  · intro st w off h hoff
    have := allocate_path_bound st w h off
    omega

/-- C7 witness: a block declaring a 4-byte local around a nested block
declaring an 8-byte local allocates a frame of at least 12 bytes. -/
theorem block_allocation_frame_bound_witness :
    PathLocals (Stmt.block [⟨4, 0⟩] [Stmt.block [⟨8, 0⟩] []]) 12 ∧
    ((Stmt.block [⟨4, 0⟩] [Stmt.block [⟨8, 0⟩] []]).allocate 0).2 ≤ 0 - 12 := by
  have hp : PathLocals (Stmt.block [⟨4, 0⟩] [Stmt.block [⟨8, 0⟩] []]) 12 :=
    PathLocals.blockCons [⟨4, 0⟩] [Stmt.block [⟨8, 0⟩] []]
      (Stmt.block [⟨8, 0⟩] []) 8 (by simp)
      (show PathLocals (Stmt.block [⟨8, 0⟩] []) 8 from
        PathLocals.blockNil [⟨8, 0⟩])
  exact ⟨hp, block_allocation_frame_bound.2.1 _ 12 0 hp⟩

/-! Claim C8: offsets after function allocation. -/

theorem stackParams_of_ge (syms : List Sym) : ∀ (i np : Nat) (off : Int),
    np ≤ i → stackParams syms i np off = (syms, off) := by
  induction syms with
  | nil => intro i np off h; rfl
  | cons s rest ih =>
      intro i np off h
      rw [stackParams, if_neg (by omega)]
      simp [ih (i + 1) np off (by omega)]

theorem stackParams_get (syms : List Sym) :
    ∀ (i np : Nat) (off0 off : Int),
    ((i ≤ NUM_PARAM_REGS ∧ off = off0) ∨
      (NUM_PARAM_REGS ≤ i ∧ i ≤ np ∧
        off = off0 + SIZEOF_PARAM * ((i : Int) - NUM_PARAM_REGS))) →
    ∀ j : Nat, ((stackParams syms i np off).1)[j]? =
      (syms[j]?).map fun s =>
        if NUM_PARAM_REGS ≤ i + j ∧ i + j < np then
          { s with offset :=
              off0 + SIZEOF_PARAM * (((i + j : Nat) : Int) - NUM_PARAM_REGS) }
        else s := by
  induction syms with
  | nil => intro i np off0 off hinv j; simp [stackParams]
  | cons s rest ih =>
      intro i np off0 off hinv j
      by_cases hnp : np ≤ i
      · rw [stackParams_of_ge _ i np off hnp]
        have hc : ¬(NUM_PARAM_REGS ≤ i + j ∧ i + j < np) := by omega
        simp [hc]
      · by_cases hreg : NUM_PARAM_REGS ≤ i
        · have hoff : off = off0 + SIZEOF_PARAM * ((i : Int) - NUM_PARAM_REGS) := by
            rcases hinv with ⟨h6, rfl⟩ | ⟨_, _, h⟩
            · have hi : i = NUM_PARAM_REGS := le_antisymm h6 hreg
              subst hi
              simp
            · exact h
          rw [stackParams, if_pos ⟨hreg, by omega⟩]
          cases j with
          | zero =>
              have hc : NUM_PARAM_REGS ≤ i + 0 ∧ i + 0 < np := by omega
              simp only [List.getElem?_cons_zero, Option.map_some, if_pos hc]
              rw [hoff]
              norm_num
          | succ j' =>
              simp only [List.getElem?_cons_succ]
              have harith : ((i + 1 : Nat) : Int) - NUM_PARAM_REGS =
                  ((i : Int) - NUM_PARAM_REGS) + 1 := by push_cast; ring
              rw [ih (i + 1) np off0 (off + SIZEOF_PARAM)
                (Or.inr ⟨by omega, by omega, by
                  rw [hoff, harith]; ring⟩) j']
              have hidx : i + 1 + j' = i + (j' + 1) := by omega
              rw [hidx]
        · rw [stackParams, if_neg (by omega)]
          have hoff : off = off0 := by
            rcases hinv with ⟨_, h⟩ | ⟨h6, _, _⟩
            · exact h
            · omega
          cases j with
          | zero =>
              have hc : ¬(NUM_PARAM_REGS ≤ i + 0 ∧ i + 0 < np) := by
                simp only [NUM_PARAM_REGS] at hreg ⊢
                omega
              simp only [List.getElem?_cons_zero, Option.map_some, if_neg hc]
              rfl
          | succ j' =>
              simp only [List.getElem?_cons_succ]
              rw [ih (i + 1) np off0 off (Or.inl ⟨by omega, hoff⟩) j']
              have hidx : i + 1 + j' = i + (j' + 1) := by omega
              rw [hidx]

theorem stackParams_length (syms : List Sym) : ∀ (i np : Nat) (off : Int),
    ((stackParams syms i np off).1).length = syms.length := by
  induction syms with
  | nil => intro i np off; rfl
  | cons s rest ih =>
      intro i np off
      by_cases h : NUM_PARAM_REGS ≤ i ∧ i < np
      · rw [stackParams, if_pos h]
        simp [ih]
      · rw [stackParams, if_neg h]
        simp [ih]

theorem regParams_spec : ∀ (fuel : Nat) (ps : List Ty) (syms : List Sym)
    (off : Int),
    (∀ p ∈ ps, ∃ sz, tySize p.promote = some sz ∧ 0 < sz) →
    min fuel ps.length ≤ syms.length →
    ∃ syms' offF, regParams syms ps fuel off = some (syms', offF) ∧
      offF ≤ off ∧ syms'.length = syms.length ∧
      (∀ j : Nat, min fuel ps.length ≤ j → syms'[j]? = syms[j]?) ∧
      (∀ j : Nat, j < min fuel ps.length →
        ∃ s o, syms[j]? = some s ∧ syms'[j]? = some { s with offset := o } ∧
          o < off) := by
  intro fuel
  induction fuel with
  | zero =>
      intro ps syms off hps hlen
      exact ⟨syms, off, by cases syms <;> cases ps <;> rfl, le_refl _, rfl,
        fun j _ => rfl, fun j hj => by simp at hj⟩
  | succ f ih =>
      intro ps syms off hps hlen
      cases ps with
      | nil =>
          exact ⟨syms, off, by cases syms <;> rfl, le_refl _, rfl,
            fun j _ => rfl, fun j hj => by simp at hj⟩
      | cons p prest =>
          cases syms with
          | nil =>
              simp only [List.length_nil, List.length_cons] at hlen
              omega
          | cons s srest =>
              obtain ⟨sz, hsz, hszpos⟩ := hps p (by simp)
              obtain ⟨rest', offF, hreg, hoffF, hlen', hunch, hassigned⟩ :=
                ih prest srest (off - sz) (fun q hq => hps q (by simp [hq]))
                  (by simp only [List.length_cons] at hlen ⊢; omega)
              refine ⟨{ s with offset := off - sz } :: rest', offF, ?_, by omega,
                by simp [hlen'], ?_, ?_⟩
              · simp only [regParams, hsz]
                simp [hreg]
              · intro j hj
                cases j with
                | zero =>
                    simp only [List.length_cons, Nat.succ_min_succ] at hj
                    omega
                | succ j' =>
                    simp only [List.getElem?_cons_succ]
                    refine hunch j' ?_
                    simp only [List.length_cons, Nat.succ_min_succ] at hj
                    omega
              · intro j hj
                cases j with
                | zero => exact ⟨s, off - sz, by simp, by simp, by omega⟩
                | succ j' =>
                    simp only [List.length_cons, Nat.succ_min_succ] at hj
                    obtain ⟨s0, o, h1, h2, h3⟩ := hassigned j' (by omega)
                    refine ⟨s0, o, ?_, ?_, by omega⟩
                    · simp only [List.getElem?_cons_succ]
                      exact h1
                    · simp only [List.getElem?_cons_succ]
                      exact h2

theorem allocDecls_get (d : List Sym) : ∀ (off : Int) (j : Nat) (s' : Sym),
    ((allocDecls d off).1)[j]? = some s' →
    ∃ s, d[j]? = some s ∧ s'.size = s.size ∧
      ((s.offset = 0 ∧ s'.offset ≤ off - s.size) ∨
        (s.offset ≠ 0 ∧ s' = s)) := by
  induction d with
  | nil => intro off j s' h; simp [allocDecls] at h
  | cons s rest ih =>
      intro off j s' h
      by_cases hz : s.offset = 0
      · rw [allocDecls, if_pos hz] at h
        cases hres : allocDecls rest (off - s.size) with
        | mk rest' offF =>
            simp only [hres] at h
            cases j with
            | zero =>
                simp only [List.getElem?_cons_zero, Option.some.injEq] at h
                subst h
                exact ⟨s, by simp, rfl, Or.inl ⟨hz, le_refl _⟩⟩
            | succ j' =>
                simp only [List.getElem?_cons_succ] at h
                have h' : ((allocDecls rest (off - s.size)).1)[j']? = some s' := by
                  rw [hres]; exact h
                obtain ⟨s0, h1, h2, h3⟩ := ih (off - s.size) j' s' h'
                refine ⟨s0, by simpa using h1, h2, ?_⟩
                rcases h3 with ⟨hz0, hle⟩ | ⟨hnz, heq⟩
                · exact Or.inl ⟨hz0, by omega⟩
                · exact Or.inr ⟨hnz, heq⟩
      · rw [allocDecls, if_neg hz] at h
        cases hres : allocDecls rest off with
        | mk rest' offF =>
            simp only [hres] at h
            cases j with
            | zero =>
                simp only [List.getElem?_cons_zero, Option.some.injEq] at h
                subst h
                exact ⟨s, by simp, rfl, Or.inr ⟨hz, rfl⟩⟩
            | succ j' =>
                simp only [List.getElem?_cons_succ] at h
                have h' : ((allocDecls rest off).1)[j']? = some s' := by
                  rw [hres]; exact h
                obtain ⟨s0, h1, h2, h3⟩ := ih off j' s' h'
                exact ⟨s0, by simpa using h1, h2, h3⟩

theorem allocDecls_all_neg (d : List Sym) : ∀ off : Int, off ≤ 0 →
    d.all symPre = true →
    ((allocDecls d off).1).all symNeg = true ∧ (allocDecls d off).2 ≤ off := by
  induction d with
  | nil => intro off hoff hall; simp [allocDecls]
  | cons s rest ih =>
      intro off hoff hall
      simp only [List.all_cons, Bool.and_eq_true, symPre, decide_eq_true_eq] at hall
      obtain ⟨⟨hsz, hz⟩, hrest⟩ := hall
      rw [allocDecls, if_pos hz]
      cases hres : allocDecls rest (off - s.size) with
      | mk rest' offF =>
          obtain ⟨hneg, hle⟩ := ih (off - s.size) (by omega) hrest
          rw [hres] at hneg hle
          simp only [hres]
          constructor
          · simp only [List.all_cons, Bool.and_eq_true, symNeg, decide_eq_true_eq]
            exact ⟨by simp; omega, hneg⟩
          · omega

mutual

theorem allocate_all_neg : ∀ (st : Stmt) (off : Int), off ≤ 0 →
    Stmt.allSyms symPre st = true →
    Stmt.allSyms symNeg ((st.allocate off).1) = true ∧
      (st.allocate off).2 ≤ off
  | .block decls stmts, off, hoff, hall => by
      simp only [Stmt.allSyms, Bool.and_eq_true] at hall
      obtain ⟨hdecls, hstmts⟩ := hall
      obtain ⟨hdneg, hdle⟩ := allocDecls_all_neg decls off hoff hdecls
      obtain ⟨hsneg, hsle⟩ := allocStmts_all_neg stmts (allocDecls decls off).2
        (allocDecls decls off).2 (le_trans hdle hoff) hstmts
      cases hd : allocDecls decls off with
      | mk decls' off1 =>
          rw [hd] at hdneg hdle hsneg hsle
          cases hs : allocStmts stmts off1 off1 with
          | mk stmts' offF =>
              rw [hs] at hsneg hsle
              simp only [Stmt.allocate, hd, hs]
              exact ⟨by simp [Stmt.allSyms, hdneg, hsneg],
                le_trans hsle hdle⟩
  | .ifS t none, off, hoff, hall => by
      simp only [Stmt.allSyms] at hall
      obtain ⟨hneg, hle⟩ := allocate_all_neg t off hoff hall
      cases ht : Stmt.allocate t off with
      | mk t' offT =>
          rw [ht] at hneg hle
          simp only [Stmt.allocate, ht]
          exact ⟨by simp [Stmt.allSyms, hneg], hle⟩
  | .ifS t (some e), off, hoff, hall => by
      simp only [Stmt.allSyms, Bool.and_eq_true] at hall
      obtain ⟨hnegT, hleT⟩ := allocate_all_neg t off hoff hall.1
      obtain ⟨hnegE, hleE⟩ := allocate_all_neg e off hoff hall.2
      cases ht : Stmt.allocate t off with
      | mk t' offT =>
          rw [ht] at hnegT hleT
          cases he : Stmt.allocate e off with
          | mk e' offE =>
              rw [he] at hnegE hleE
              simp only [Stmt.allocate, ht, he]
              exact ⟨by simp [Stmt.allSyms, hnegT, hnegE],
                le_trans (min_le_left _ _) hleT⟩
  | .whileS b, off, hoff, hall => by
      simp only [Stmt.allSyms] at hall
      obtain ⟨hneg, hle⟩ := allocate_all_neg b off hoff hall
      cases hb : Stmt.allocate b off with
      | mk b' offB =>
          rw [hb] at hneg hle
          simp only [Stmt.allocate, hb]
          exact ⟨by simp [Stmt.allSyms, hneg], hle⟩
  | .forS b, off, hoff, hall => by
      simp only [Stmt.allSyms] at hall
      obtain ⟨hneg, hle⟩ := allocate_all_neg b off hoff hall
      cases hb : Stmt.allocate b off with
      | mk b' offB =>
          rw [hb] at hneg hle
          simp only [Stmt.allocate, hb]
          exact ⟨by simp [Stmt.allSyms, hneg], hle⟩
  | .leaf, off, hoff, hall => ⟨rfl, le_refl _⟩
termination_by st _ _ _ => sizeOf st

theorem allocStmts_all_neg : ∀ (ss : List Stmt) (saved acc : Int),
    saved ≤ 0 → allSymsList symPre ss = true →
    allSymsList symNeg ((allocStmts ss saved acc).1) = true ∧
      (allocStmts ss saved acc).2 ≤ acc
  | [], saved, acc, _, _ => ⟨rfl, le_refl _⟩
  | s :: rest, saved, acc, hsaved, hall => by
      simp only [allSymsList, Bool.and_eq_true] at hall
      obtain ⟨hneg1, hle1⟩ := allocate_all_neg s saved hsaved hall.1
      cases h1 : Stmt.allocate s saved with
      | mk s' t =>
          rw [h1] at hneg1 hle1
          obtain ⟨hneg2, hle2⟩ := allocStmts_all_neg rest saved (min acc t)
            hsaved hall.2
          cases h2 : allocStmts rest saved (min acc t) with
          | mk rest' accF =>
              rw [h2] at hneg2 hle2
              simp only [allocStmts, h1, h2]
              exact ⟨by simp [allSymsList, hneg1, hneg2],
                le_trans hle2 (min_le_left _ _)⟩
termination_by ss _ _ _ _ => sizeOf ss

end

theorem all_getElem (l : List Sym) (p : Sym → Bool) (h : l.all p = true) :
    ∀ (j : Nat) (s : Sym), l[j]? = some s → p s = true := by
  induction l with
  | nil => intro j s hs; simp at hs
  | cons x rest ih =>
      intro j s hs
      simp only [List.all_cons, Bool.and_eq_true] at h
      cases j with
      | zero =>
          simp only [List.getElem?_cons_zero, Option.some.injEq] at hs
          subst hs
          exact h.1
      | succ j' =>
          simp only [List.getElem?_cons_succ] at hs
          exact ih h.2 j' s hs

set_option maxHeartbeats 1000000 in
/-- C8: after allocation of an error-free function from the standard
initial offset (two saved registers), no symbol of the function keeps
offset 0 (offset 0 identifies globals, which allocation never
touches): stack-passed parameters beyond the sixth receive the positive
offsets 16, 24, ... in order, register-passed parameters and all block
locals receive strictly negative offsets. -/
theorem funcAllocate_offset_classification (params : List Ty) (decls : List Sym) (stmts : List Stmt)
    (hlen : params.length ≤ decls.length)
    (hsizes : ∀ p ∈ params, ∃ sz, tySize (Ty.promote p) = some sz ∧ 0 < sz)
    (hdecls : decls.all symPre = true)
    (hstmts : allSymsList symPre stmts = true) :
    ∃ (decls3 : List Sym) (stmts' : List Stmt) (offF : Int),
      funcAllocate params decls stmts (2 * SIZEOF_REG) =
        some (.block decls3 stmts', offF) ∧
      (∀ (j : Nat) (s : Sym), decls3[j]? = some s →
        (NUM_PARAM_REGS ≤ j ∧ j < params.length →
          s.offset = 2 * SIZEOF_REG +
            SIZEOF_PARAM * ((j : Int) - NUM_PARAM_REGS)) ∧
        (j < params.length → j < NUM_PARAM_REGS → s.offset < 0) ∧
        (params.length ≤ j → s.offset < 0) ∧
        s.offset ≠ 0) ∧
      allSymsList symNeg stmts' = true := by
  cases hsp : stackParams decls 0 params.length (2 * SIZEOF_REG) with
  | mk decls1 o1 =>
      have hget1 : ∀ j : Nat, decls1[j]? =
          (decls[j]?).map fun s =>
            if NUM_PARAM_REGS ≤ 0 + j ∧ 0 + j < params.length then
              { s with offset := 2 * SIZEOF_REG +
                  SIZEOF_PARAM * (((0 + j : Nat) : Int) - NUM_PARAM_REGS) }
            else s := by
        intro j
        have := stackParams_get decls 0 params.length (2 * SIZEOF_REG)
          (2 * SIZEOF_REG) (Or.inl ⟨by simp [NUM_PARAM_REGS], rfl⟩) j
        rw [hsp] at this
        exact this
      have hlen1 : decls1.length = decls.length := by
        have := stackParams_length decls 0 params.length (2 * SIZEOF_REG)
        rw [hsp] at this
        exact this
      obtain ⟨decls2, offR, hreg, hoffR, hlen2, hunch, hassigned⟩ :=
        regParams_spec NUM_PARAM_REGS params decls1 0 hsizes
          (by rw [hlen1]; exact le_trans (min_le_right _ _) hlen)
      cases hd : allocDecls decls2 offR with
      | mk decls3 off1 =>
          have hoff1 : off1 ≤ offR := by
            have := allocDecls_snd decls2 offR
            rw [hd] at this
            simp only at this
            rw [this]
            omega
          obtain ⟨hsneg, hsle⟩ := allocStmts_all_neg stmts off1 off1
            (by omega) hstmts
          cases hs : allocStmts stmts off1 off1 with
          | mk stmts2 offF =>
              rw [hs] at hsneg hsle
              refine ⟨decls3, stmts2, offF, ?_, ?_, hsneg⟩
              · rw [funcAllocate, hsp]
                simp [hreg]
                simp [Stmt.allocate, hd, hs]
              · intro j s hj
                have hd2 : ((allocDecls decls2 offR).1)[j]? = some s := by
                  rw [hd]; exact hj
                obtain ⟨s2, hs2, hsize2, hcase⟩ :=
                  allocDecls_get decls2 offR j s hd2
                by_cases hstack : NUM_PARAM_REGS ≤ j ∧ j < params.length
                · have h2 : decls2[j]? = decls1[j]? := by
                    refine hunch j ?_
                    have := hstack.1
                    omega
                  rw [h2, hget1 j] at hs2
                  have hcond : NUM_PARAM_REGS ≤ 0 + j ∧ 0 + j < params.length := by
                    omega
                  obtain ⟨s0, hs0, hs0eq⟩ := Option.map_eq_some'.mp hs2
                  rw [if_pos hcond] at hs0eq
                  have hval : s2.offset = 2 * (SIZEOF_REG : Int) +
                      SIZEOF_PARAM * (((0 + j : Nat) : Int) - NUM_PARAM_REGS) := by
                    rw [← hs0eq]
                  have hpos : (0 : Int) < s2.offset := by
                    rw [hval]
                    have hj6 : NUM_PARAM_REGS ≤ j := hstack.1
                    simp only [SIZEOF_PARAM, SIZEOF_REG, NUM_PARAM_REGS] at hj6 ⊢
                    push_cast
                    omega
                  rcases hcase with ⟨hz, _⟩ | ⟨hnz, heq⟩
                  · rw [hz] at hpos
                    exact absurd hpos (by omega)
                  · subst heq
                    refine ⟨fun _ => ?_, fun h1 h2 => by omega,
                      fun h1 => by omega, by omega⟩
                    rw [hval]
                    push_cast
                    ring
                · by_cases hregp : j < min NUM_PARAM_REGS params.length
                  · obtain ⟨s1, o, hs1, hs1p, ho⟩ := hassigned j hregp
                    rw [hs1p] at hs2
                    have hs2eq : s2 = { size := s1.size, offset := o } :=
                      (Option.some.inj hs2).symm
                    have hneg2 : s2.offset < 0 := by
                      rw [hs2eq]
                      exact ho
                    rcases hcase with ⟨hz, _⟩ | ⟨hnz, heq⟩
                    · rw [hz] at hneg2
                      exact absurd hneg2 (by omega)
                    · subst heq
                      exact ⟨fun h => by omega, fun _ _ => hneg2,
                        fun h => by omega, by omega⟩
                  · have hloc : params.length ≤ j := by omega
                    have h2 : decls2[j]? = decls1[j]? := hunch j (by omega)
                    rw [h2, hget1 j] at hs2
                    have hcond : ¬(NUM_PARAM_REGS ≤ 0 + j ∧
                        0 + j < params.length) := by
                      omega
                    obtain ⟨s0, hs0, hs0eq⟩ := Option.map_eq_some'.mp hs2
                    rw [if_neg hcond] at hs0eq
                    subst hs0eq
                    have hpre : symPre s0 = true :=
                      all_getElem decls symPre hdecls j s0 hs0
                    simp only [symPre, Bool.and_eq_true, decide_eq_true_eq]
                      at hpre
                    rcases hcase with ⟨hz, hle⟩ | ⟨hnz, heq⟩
                    · have hneg : s.offset < 0 := by
                        have hsz2 : (0 : Int) < (s0.size : Int) := by
                          exact_mod_cast hpre.1
                        omega
                      exact ⟨fun h => by omega, fun _ _ => hneg,
                        fun _ => hneg, by omega⟩
                    · exact absurd hpre.2 hnz

/-- C8 witness: a function of one int parameter and one 8-byte local. -/
theorem funcAllocate_offset_classification_witness :
    [intTy].length ≤ ([⟨4, 0⟩, ⟨8, 0⟩] : List Sym).length ∧
    (∀ p ∈ [intTy], ∃ sz, tySize (Ty.promote p) = some sz ∧ 0 < sz) ∧
    ([⟨4, 0⟩, ⟨8, 0⟩] : List Sym).all symPre = true ∧
    allSymsList symPre [] = true ∧
    (∃ (decls3 : List Sym) (stmts2 : List Stmt) (offF : Int),
      funcAllocate [intTy] [⟨4, 0⟩, ⟨8, 0⟩] [] (2 * SIZEOF_REG) =
        some (.block decls3 stmts2, offF) ∧
      (∀ (j : Nat) (s : Sym), decls3[j]? = some s →
        (NUM_PARAM_REGS ≤ j ∧ j < [intTy].length →
          s.offset = 2 * SIZEOF_REG +
            SIZEOF_PARAM * ((j : Int) - NUM_PARAM_REGS)) ∧
        (j < [intTy].length → j < NUM_PARAM_REGS → s.offset < 0) ∧
        ([intTy].length ≤ j → s.offset < 0) ∧
        s.offset ≠ 0) ∧
      allSymsList symNeg stmts2 = true) := by
  have hsizes : ∀ p ∈ [intTy], ∃ sz, tySize (Ty.promote p) = some sz ∧
      0 < sz := by
    intro p hp
    simp only [List.mem_singleton] at hp
    subst hp
    exact ⟨4, rfl, by decide⟩
  exact ⟨by decide, hsizes, by decide, rfl,
    funcAllocate_offset_classification [intTy] [⟨4, 0⟩, ⟨8, 0⟩] []
      (by decide) hsizes (by decide) rfl⟩

end SimpleC
